import Mathlib

/-!
Verification of the Reconquest Bitcoin escrow derivation core
(src/bitcoin_escrow.py): public-key canonicalization, multisig witness
script construction, SHA-256 hashing, bech32 address encoding/decoding,
and BIP-174 PSBT byte layout.  Bytes are modelled as natural numbers
below 256, byte strings as lists of naturals, Python exceptions as
Option/Except failures.
-/

namespace Reconquest

/-- Value of a single hexadecimal digit character, if it is one. -/
def hexDigitVal (c : Char) : Option Nat :=
  if '0' ≤ c ∧ c ≤ '9' then some (c.toNat - 48)
  else if 'a' ≤ c ∧ c ≤ 'f' then some (c.toNat - 87)
  else if 'A' ≤ c ∧ c ≤ 'F' then some (c.toNat - 55)
  else none

/-- ASCII whitespace characters that the Python bytes.fromhex classmethod
skips between byte pairs. -/
def isAsciiWs (c : Char) : Bool :=
  c = ' ' ∨ c = '\t' ∨ c = '\n' ∨ c = '\r' ∨ c = '\x0b' ∨ c = '\x0c'

/-- Parse a list of characters as hex byte pairs, skipping ASCII whitespace
between pairs, exactly as the Python bytes.fromhex classmethod does.
Fails (the source raises ValueError) on a stray nibble or non-hex char. -/
def hexPairs : List Char → Option (List Nat)
  | [] => some []
  | c :: cs =>
    if isAsciiWs c then hexPairs cs
    else
      match cs with
      | [] => none
      | d :: cs2 =>
        match hexDigitVal c, hexDigitVal d with
        | some hi, some lo => (hexPairs cs2).map (fun r => (hi * 16 + lo) :: r)
        | _, _ => none

/-- Model of the Python bytes.fromhex classmethod. -/
def pyFromhex (s : String) : Option (List Nat) :=
  hexPairs s.toList

/-- The bech32 generator constants used by the polymod accumulator. -/
def BECH32_GEN : List Nat := [0x3b6a57b2, 0x26508e6d, 0x1ea119fa, 0x3d4233dd, 0x2a1462b3]

/-- Embeds bech32_polymod: BCH-style checksum accumulator over 5-bit values. -/
def bech32_polymod (values : List Nat) : Nat :=
  values.foldl
    (fun chk value =>
      let top := chk >>> 25
      let chk2 := (((chk &&& 0x1ffffff) <<< 5) ^^^ value)
      (List.range 5).foldl
        (fun c i => c ^^^ (if (top >>> i) &&& 1 = 1 then BECH32_GEN.getD i 0 else 0)) chk2)
    1

/-- Embeds bech32_hrp_expand: high 3 bits of each hrp char, a zero, then low 5 bits. -/
def bech32_hrp_expand (hrp : String) : List Nat :=
  hrp.toList.map (fun c => c.toNat >>> 5) ++ [0] ++ hrp.toList.map (fun c => c.toNat &&& 31)

/-- Embeds bech32_verify_checksum. -/
def bech32_verify_checksum (hrp : String) (data : List Nat) : Bool :=
  bech32_polymod (bech32_hrp_expand hrp ++ data) = 1

/-- Embeds bech32_create_checksum. -/
def bech32_create_checksum (hrp : String) (data : List Nat) : List Nat :=
  let values := bech32_hrp_expand hrp ++ data
  let polymod := bech32_polymod (values ++ [0, 0, 0, 0, 0, 0]) ^^^ 1
  (List.range 6).map (fun i => (polymod >>> (5 * (5 - i))) &&& 31)

/-- Inner while loop of convertbits: emit tobits-sized groups while at least
tobits bits are accumulated.  The loop runs at most bits iterations, so the
structural fuel argument never runs out when started at bits. -/
def convertbitsEmitF (tobits maxv acc : Nat) : Nat → Nat → List Nat × Nat
  | 0, bits => ([], bits)
  | fuel + 1, bits =>
    if 0 < tobits ∧ tobits ≤ bits then
      let bits2 := bits - tobits
      let rest := convertbitsEmitF tobits maxv acc fuel bits2
      (((acc >>> bits2) &&& maxv) :: rest.1, rest.2)
    else ([], bits)

/-- Emit loop of convertbits, with the fuel instantiated to its bound. -/
def convertbitsEmit (tobits maxv acc bits : Nat) : List Nat × Nat :=
  convertbitsEmitF tobits maxv acc bits bits

/-- Outer loop of convertbits over the input values; returns the emitted
groups together with the final accumulator and bit count, or none if an
input value does not fit in frombits bits. -/
def convertbitsGo (frombits tobits maxv maxAcc : Nat) :
    List Nat → Nat → Nat → Option (List Nat × Nat × Nat)
  | [], acc, bits => some ([], acc, bits)
  | v :: rest, acc, bits =>
    if v >>> frombits ≠ 0 then none
    else
      let acc2 := ((acc <<< frombits) ||| v) &&& maxAcc
      let em := convertbitsEmit tobits maxv acc2 (bits + frombits)
      match convertbitsGo frombits tobits maxv maxAcc rest acc2 em.2 with
      | none => none
      | some (l, a, b) => some (em.1 ++ l, a, b)

/-- Embeds convertbits: general power-of-2 base regrouping, with the pad
flag controlling the treatment of leftover bits. -/
def convertbits (data : List Nat) (frombits tobits : Nat) (pad : Bool) : Option (List Nat) :=
  let maxv := (1 <<< tobits) - 1
  let maxAcc := (1 <<< (frombits + tobits - 1)) - 1
  match convertbitsGo frombits tobits maxv maxAcc data 0 0 with
  | none => none
  | some (ret, acc, bits) =>
    if pad then
      if bits ≠ 0 then some (ret ++ [(acc <<< (tobits - bits)) &&& maxv]) else some ret
    else if frombits ≤ bits ∨ ((acc <<< (tobits - bits)) &&& maxv) ≠ 0 then none
    else some ret

/-- The fixed bech32 charset. -/
def CHARSET : List Char := "qpzry9x8gf2tvdw0s3jn54khce6mua7l".toList

/-- Embeds encode_bech32_address: regroup the witness program to 5-bit
symbols, put the witness version in front, append the checksum, and map
through the charset.  An out-of-range symbol would raise IndexError in the
source, modelled as none. -/
def encode_bech32_address (hrp : String) (witver : Nat) (witprog : List Nat) : Option String :=
  match convertbits witprog 8 5 true with
  | none => none
  | some convertedBits =>
    let data := witver :: convertedBits
    let data2 := data ++ bech32_create_checksum hrp data
    match data2.mapM (fun d => CHARSET[d]?) with
    | none => none
    | some chars => some (hrp ++ "1" ++ String.mk chars)

/-- Little-endian base-256 digits of a natural number (empty for zero);
this is the result list built by the while loop inside push_int, written
with the bit operations of the source. -/
def pushIntBytes (v : Nat) : List Nat :=
  if h : v = 0 then [] else (v &&& 0xff) :: pushIntBytes (v >>> 8)
termination_by v
decreasing_by
  simp only [Nat.shiftRight_eq_div_pow]
  omega

/-- Embeds push_int: minimal script push of a non-negative integer
(0 becomes OP_0, 1..16 become OP_1..OP_16, larger values become a length
byte followed by little-endian bytes, padded with 0x00 when the top byte
has its sign bit set). -/
def push_int (value : Nat) : List Nat :=
  if value = 0 then [0x00]
  else if 1 ≤ value ∧ value ≤ 16 then [0x50 + value]
  else
    let result := pushIntBytes value
    let result2 := if (result.getLastD 0) &&& 0x80 ≠ 0 then result ++ [0x00] else result
    result2.length :: result2

/-- One iteration domain of the push_int while loop over Python integers:
fuel-indexed so the negative (non-terminating) case is expressible.  The
loop keeps the low byte (value mod 256, Python value AND 0xff) and
arithmetically shifts right by 8 bits (floor division by 256). -/
def push_int_loop : Nat → Int → Option (List Nat)
  | 0, v => if v = 0 then some [] else none
  | fuel + 1, v =>
    if v = 0 then some []
    else
      match push_int_loop fuel (Int.fdiv v 256) with
      | none => none
      | some l => some ((v.emod 256).toNat :: l)

/-- Fuel-indexed embedding of push_int over Python integers (which may be
negative); none means the loop has not terminated within the given fuel. -/
def push_int_int (fuel : Nat) (value : Int) : Option (List Nat) :=
  if value = 0 then some [0x00]
  else if 1 ≤ value ∧ value ≤ 16 then some [0x50 + value.toNat]
  else
    match push_int_loop fuel value with
    | none => none
    | some result =>
      let result2 := if (result.getLastD 0) &&& 0x80 ≠ 0 then result ++ [0x00] else result
      some (result2.length :: result2)

/-- SHA-256 round constants (FIPS 180-4). -/
def SHA256_K : List Nat :=
  [1116352408, 1899447441, 3049323471, 3921009573, 961987163, 1508970993,
   2453635748, 2870763221, 3624381080, 310598401, 607225278, 1426881987,
   1925078388, 2162078206, 2614888103, 3248222580, 3835390401, 4022224774,
   264347078, 604807628, 770255983, 1249150122, 1555081692, 1996064986,
   2554220882, 2821834349, 2952996808, 3210313671, 3336571891, 3584528711,
   113926993, 338241895, 666307205, 773529912, 1294757372, 1396182291,
   1695183700, 1986661051, 2177026350, 2456956037, 2730485921, 2820302411,
   3259730800, 3345764771, 3516065817, 3600352804, 4094571909, 275423344,
   430227734, 506948616, 659060556, 883997877, 958139571, 1322822218,
   1537002063, 1747873779, 1955562222, 2024104815, 2227730452, 2361852424,
   2428436474, 2756734187, 3204031479, 3329325298]

/-- The eight SHA-256 chaining words. -/
structure Sha256State where
  a : Nat
  b : Nat
  c : Nat
  d : Nat
  e : Nat
  f : Nat
  g : Nat
  h : Nat
deriving DecidableEq, Repr

/-- SHA-256 initial hash value (FIPS 180-4). -/
def sha256Init : Sha256State :=
  ⟨1779033703, 3144134277, 1013904242, 2773480762, 1359893119, 2600822924, 528734635, 1541459225⟩

/-- Right rotation of a 32-bit word. -/
def rotr32 (x n : Nat) : Nat :=
  ((x >>> n) ||| (x <<< (32 - n))) &&& 0xffffffff

/-- Addition modulo two to the 32. -/
def add32 (x y : Nat) : Nat := (x + y) &&& 0xffffffff

/-- SHA-256 message schedule: extend 16 big-endian words to 64. -/
def sha256Extend (w0 : Array Nat) : Array Nat :=
  (List.range 48).foldl
    (fun w j =>
      let i := j + 16
      let x15 := w.getD (i - 15) 0
      let x2 := w.getD (i - 2) 0
      let s0 := (rotr32 x15 7) ^^^ (rotr32 x15 18) ^^^ (x15 >>> 3)
      let s1 := (rotr32 x2 17) ^^^ (rotr32 x2 19) ^^^ (x2 >>> 10)
      w.push (add32 (add32 (w.getD (i - 16) 0) s0) (add32 (w.getD (i - 7) 0) s1)))
    w0

/-- One SHA-256 compression step for round i. -/
def sha256Round (w : Array Nat) (st : Sha256State) (i : Nat) : Sha256State :=
  let s1 := (rotr32 st.e 6) ^^^ (rotr32 st.e 11) ^^^ (rotr32 st.e 25)
  let ch := (st.e &&& st.f) ^^^ ((0xffffffff - st.e) &&& st.g)
  let temp1 := add32 (add32 st.h s1) (add32 (add32 ch (SHA256_K.getD i 0)) (w.getD i 0))
  let s0 := (rotr32 st.a 2) ^^^ (rotr32 st.a 13) ^^^ (rotr32 st.a 22)
  let maj := (st.a &&& st.b) ^^^ (st.a &&& st.c) ^^^ (st.b &&& st.c)
  let temp2 := add32 s0 maj
  ⟨add32 temp1 temp2, st.a, st.b, st.c, add32 st.d temp1, st.e, st.f, st.g⟩

/-- SHA-256 compression of one 16-word block into the chaining state. -/
def sha256Compress (hs : Sha256State) (block : List Nat) : Sha256State :=
  let w := sha256Extend (List.toArray block)
  let st := (List.range 64).foldl (sha256Round w) hs
  ⟨add32 hs.a st.a, add32 hs.b st.b, add32 hs.c st.c, add32 hs.d st.d,
   add32 hs.e st.e, add32 hs.f st.f, add32 hs.g st.g, add32 hs.h st.h⟩

/-- Split a byte list into the big-endian 32-bit words of 64-byte blocks. -/
def sha256BlocksF : Nat → List Nat → List (List Nat)
  | 0, _ => []
  | _, [] => []
  | fuel + 1, b0 :: bs =>
    let blk := (b0 :: bs).take 64
    let words := (List.range 16).map
      (fun i => (blk.getD (4 * i) 0 <<< 24) ||| (blk.getD (4 * i + 1) 0 <<< 16) |||
                (blk.getD (4 * i + 2) 0 <<< 8) ||| blk.getD (4 * i + 3) 0)
    words :: sha256BlocksF fuel ((b0 :: bs).drop 64)

/-- Split a byte list into the big-endian 32-bit words of its 64-byte
blocks; each step consumes 64 bytes, so the list length bounds the
iteration count and the structural fuel never runs out. -/
def sha256Blocks (bs : List Nat) : List (List Nat) :=
  sha256BlocksF bs.length bs

/-- SHA-256 message padding: a 0x80 byte, zeros to 56 mod 64, and the
bit length as eight big-endian bytes. -/
def sha256Pad (msg : List Nat) : List Nat :=
  let len := msg.length
  let zeros := (119 - (len % 64)) % 64
  let bitLen := len * 8
  msg ++ [0x80] ++ List.replicate zeros 0 ++
    [(bitLen >>> 56) &&& 0xff, (bitLen >>> 48) &&& 0xff, (bitLen >>> 40) &&& 0xff,
     (bitLen >>> 32) &&& 0xff, (bitLen >>> 24) &&& 0xff, (bitLen >>> 16) &&& 0xff,
     (bitLen >>> 8) &&& 0xff, bitLen &&& 0xff]

/-- Big-endian bytes of a 32-bit word. -/
def wordBytesBE (w : Nat) : List Nat :=
  [(w >>> 24) &&& 0xff, (w >>> 16) &&& 0xff, (w >>> 8) &&& 0xff, w &&& 0xff]

/-- SHA-256 digest of a byte list, as 32 bytes (models hashlib.sha256().digest()). -/
def sha256 (msg : List Nat) : List Nat :=
  let final := (sha256Blocks (sha256Pad msg)).foldl sha256Compress sha256Init
  [final.a, final.b, final.c, final.d, final.e, final.f, final.g, final.h].flatMap wordBytesBE

/-- The base64 alphabet. -/
def BASE64CHARS : List Char :=
  "ABCDEFGHIJKLMNOPQRSTUVWXYZabcdefghijklmnopqrstuvwxyz0123456789+/".toList

/-- Character of a 6-bit group. -/
def b64Char (n : Nat) : Char := BASE64CHARS.getD n 'A'

/-- Standard base64 encoding of a byte list (models base64.b64encode). -/
def base64Chars : List Nat → List Char
  | a :: b :: c :: rest =>
    let n := (a <<< 16) ||| (b <<< 8) ||| c
    b64Char (n >>> 18) :: b64Char ((n >>> 12) &&& 63) :: b64Char ((n >>> 6) &&& 63) ::
      b64Char (n &&& 63) :: base64Chars rest
  | [a, b] =>
    let n := (a <<< 16) ||| (b <<< 8)
    [b64Char (n >>> 18), b64Char ((n >>> 12) &&& 63), b64Char ((n >>> 6) &&& 63), '=']
  | [a] =>
    let n := a <<< 16
    [b64Char (n >>> 18), b64Char ((n >>> 12) &&& 63), '=', '=']
  | [] => []

/-- Base64 encoding as a string. -/
def base64Encode (bs : List Nat) : String := String.mk (base64Chars bs)

/-- Embeds decode_bech32_to_scriptpubkey: locate the last separator,
map symbols through the charset, strip (without verifying) the final six
checksum symbols, take the witness version, regroup to bytes with no
padding, and wrap as a version-0 or version-n scriptPubKey.  Any of the
IndexError/ValueError paths of the source is modelled as none. -/
def decode_bech32_to_scriptpubkey (address : String) : Option (List Nat) :=
  let chars := address.toList
  if '1' ∈ chars then
    let pos := chars.length - 1 - chars.reverse.indexOf '1'
    if pos < 1 then none
    else
      let dataPart := chars.drop (pos + 1)
      match dataPart.mapM (fun c => CHARSET.indexOf? c) with
      | none => none
      | some syms =>
        match syms.take (syms.length - 6) with
        | [] => none
        | witver :: progSyms =>
          match convertbits progSyms 5 8 false with
          | none => none
          | some witprog =>
            if witprog.length ≤ 255 then
              if witver = 0 then some ([0x00, witprog.length] ++ witprog)
              else some ([0x50 + witver, witprog.length] ++ witprog)
            else none
  else none

/-- Bit length of a natural number (zero for zero), halving at each step;
the value itself bounds the iteration count, so the structural fuel never
runs out. -/
def natBitsF : Nat → Nat → Nat
  | 0, _ => 0
  | fuel + 1, n => if n = 0 then 0 else natBitsF fuel (n / 2) + 1

/-- Bit length of a natural number, as the Python int bit_length method. -/
def natBits (n : Nat) : Nat := natBitsF n n

/-- Characters accepted by the explicit hex check inside create_multisig_escrow. -/
def isHexDigitChar (c : Char) : Bool := (hexDigitVal c).isSome

/-- Removal of leading and trailing ASCII whitespace, embedding the Python
str.strip method on the ASCII strings this system handles. -/
def strTrim (s : String) : String :=
  String.mk (((s.toList.dropWhile isAsciiWs).reverse.dropWhile isAsciiWs).reverse)

/-- Left-to-right removal of every non-overlapping occurrence of the
two-character substring 0x, embedding the Python replace call of the
source. -/
def removeZeroX : List Char → List Char
  | '0' :: 'x' :: rest => removeZeroX rest
  | c :: rest => c :: removeZeroX rest
  | [] => []

/-- Lowercasing of the ASCII hex letters, agreeing with the Python str.lower
method on the hex strings to which the source applies it. -/
def lowerHexChar (c : Char) : Char :=
  if c = 'A' then 'a' else if c = 'B' then 'b' else if c = 'C' then 'c'
  else if c = 'D' then 'd' else if c = 'E' then 'e' else if c = 'F' then 'f' else c

/-- Lowercase form of a hex string. -/
def lowerHex (s : String) : String := String.mk (s.toList.map lowerHexChar)

/-- Lexicographic comparison of character lists by code point, embedding
the Python string comparison used as the sort key order. -/
def charsLe : List Char → List Char → Bool
  | [], _ => true
  | _ :: _, [] => false
  | a :: as, b :: bs =>
    if a.toNat < b.toNat then true
    else if b.toNat < a.toNat then false
    else charsLe as bs

/-- String comparison by code points (the Python total order on strings). -/
def strLeB (a b : String) : Bool := charsLe a.toList b.toList

/-- Character-list version of the Python str.startswith test. -/
def charsBegin : List Char → List Char → Bool
  | [], _ => true
  | _ :: _, [] => false
  | p :: ps, c :: cs => p = c && charsBegin ps cs

/-- Embeds the Python str.startswith method. -/
def pyStartswith (s pre : String) : Bool := charsBegin pre.toList s.toList

/-- Error cases of single-key validation, following the taxonomy of the spec
(the source raises ValueError with distinguishing messages). -/
inductive KeyErr where
  | invalidEncoding
  | invalidLength
  | invalidPrefix
deriving DecidableEq, Repr

/-- Error cases of create_multisig_escrow. -/
inductive EscrowErr where
  | unsupportedNetwork
  | missingKeys
  | keyFailure (label : String) (e : KeyErr)
deriving DecidableEq, Repr

/-- The cleaning step applied to a key string before validation: strip
surrounding whitespace, then remove every occurrence of the substring 0x
(the Python str.replace removes all occurrences, not only a leading
prefix). -/
def cleanKey (hex_key : String) : String :=
  String.mk (removeZeroX (strTrim hex_key).toList)

/-- Embeds the per-key validation loop of create_multisig_escrow: clean
the string, check that all characters are hex digits, check for exactly
66 characters, then construct the key.  Modelled from the spec: the
bitcoinlib Key constructor and its public_hex property are external to
this repository; per the spec a key is accepted iff its first byte is
0x02 or 0x03, and the canonical public_hex form is the 66 lowercase hex
characters. -/
def validate_pubkey (hex_key : String) : Except KeyErr String :=
  let clean := cleanKey hex_key
  if ¬ (clean.toList.all isHexDigitChar) then .error .invalidEncoding
  else if clean.length ≠ 66 then .error .invalidLength
  else
    let lower := lowerHex clean
    match pyFromhex lower with
    | some (b :: _) => if b = 0x02 ∨ b = 0x03 then .ok lower else .error .invalidPrefix
    | _ => .error .invalidPrefix

/-- Result record of create_multisig_escrow (the fields of the returned
dict that carry data; byte-valued fields are held as byte lists, which the
source renders as lowercase hex). -/
structure EscrowResult where
  address : Option String
  witness_script : List Nat
  script_pubkey : List Nat
  script_hash : List Nat
  public_keys : List String
  public_keys_original_order : String × String × String
  signatures_required : Nat
  total_keys : Nat
  network : String
deriving DecidableEq, Repr

/-- Network-specific bech32 human-readable part (NETWORK_CONFIG lookup). -/
def hrpOfNetwork (network : String) : String :=
  if network = "mainnet" then "bc" else "tb"

/-- Byte list of a validated public key; bytes.fromhex of a validated
66-hex-character key cannot fail, so the default is unreachable. -/
def keyBytes (k : String) : List Nat := (pyFromhex k).getD []

/-- The 3-of-3 multisig witness script body: OP_3, three length-prefixed
key pushes in the given order, OP_3, OP_CHECKMULTISIG. -/
def escrowScript (sortedKeys : List String) : List Nat :=
  0x53 :: (sortedKeys.flatMap (fun k => (keyBytes k).length :: keyBytes k)) ++ [0x53, 0xae]

/-- Sorting of the validated public_hex strings, ascending, as the source
sorted call with the public_hex sort key. -/
def sortKeys (l : List String) : List String :=
  l.insertionSort (fun a b => strLeB a b = true)

/-- Assembly of the escrow result from the sorted keys and the network. -/
def escrowBuild (sortedKeys : List String) (orig : String × String × String)
    (network : String) : EscrowResult :=
  let script := escrowScript sortedKeys
  let scriptHash := sha256 script
  { address := encode_bech32_address (hrpOfNetwork network) 0 scriptHash
    witness_script := script
    script_pubkey := [0x00, 0x20] ++ scriptHash
    script_hash := scriptHash
    public_keys := sortedKeys
    public_keys_original_order := orig
    signatures_required := 3
    total_keys := 3
    network := network }

/-- Embeds create_multisig_escrow: network check, non-empty check, per-key
validation in order borrower, investor, platform, sort by public_hex, then
script, hash, scriptPubKey and bech32 address derivation. -/
def create_multisig_escrow (borrower investor platform network : String) :
    Except EscrowErr EscrowResult :=
  if network = "testnet" ∨ network = "mainnet" then
    if borrower = "" ∨ investor = "" ∨ platform = "" then .error .missingKeys
    else
      match validate_pubkey borrower, validate_pubkey investor, validate_pubkey platform with
      | .error e, _, _ => .error (.keyFailure "borrower" e)
      | .ok _, .error e, _ => .error (.keyFailure "investor" e)
      | .ok _, .ok _, .error e => .error (.keyFailure "platform" e)
      | .ok kb, .ok ki, .ok kp =>
        .ok (escrowBuild (sortKeys [kb, ki, kp]) (borrower, investor, platform) network)
  else .error .unsupportedNetwork

/-- Embeds verify_multisig_address: recompute the bech32 address from the
supplied witness script and compare; every exception path (bad network,
bad hex) yields false. -/
def verify_multisig_address (address : String) (witness_script_hex : String)
    (network : String) : Bool :=
  if network = "testnet" ∨ network = "mainnet" then
    match pyFromhex witness_script_hex with
    | none => false
    | some ws =>
      match encode_bech32_address (hrpOfNetwork network) 0 (sha256 ws) with
      | none => false
      | some calculated => address = calculated
  else false

/-- Python bytes comparison: lexicographic over the byte values. -/
def bytesLe : List Nat → List Nat → Bool
  | [], _ => true
  | _ :: _, [] => false
  | a :: as, b :: bs => if a < b then true else if a = b then bytesLe as bs else false

/-- Result record of create_timelocked_witness_script. -/
structure TimelockResult where
  witness_script : List Nat
  script_hash : List Nat
  recovery_blocks : Nat
  recovery_days : Nat
  sorted_pubkeys : List (List Nat)
deriving DecidableEq, Repr

/-- Embeds create_timelocked_witness_script: an OP_IF recovery branch
(borrower key, OP_CHECKSIGVERIFY, minimal push of the timelock,
OP_CHECKSEQUENCEVERIFY, OP_DROP, OP_TRUE) and an OP_ELSE 3-of-3 multisig
branch over the byte-sorted keys, closed by OP_ENDIF.  A key longer than
255 bytes would make the bytearray length append raise, modelled as none.
The timelock is a natural number here; negative Python values make the
push_int loop diverge (see push_int_loop). -/
def create_timelocked_witness_script (borrowerHex investorHex platformHex : String)
    (recovery_blocks : Nat) : Option TimelockResult :=
  match pyFromhex (strTrim borrowerHex), pyFromhex (strTrim investorHex),
      pyFromhex (strTrim platformHex) with
  | some borrowerPk, some investorPk, some platformPk =>
    if borrowerPk.length ≤ 255 ∧ investorPk.length ≤ 255 ∧ platformPk.length ≤ 255 then
      let sortedPks :=
        List.insertionSort (fun x y => bytesLe x y = true) [borrowerPk, investorPk, platformPk]
      let script := [0x63] ++ (borrowerPk.length :: borrowerPk) ++ [0xad]
        ++ push_int recovery_blocks ++ [0xb2, 0x75, 0x51, 0x67, 0x53]
        ++ (sortedPks.flatMap (fun pk => pk.length :: pk)) ++ [0x53, 0xae, 0x68]
      some { witness_script := script
             script_hash := sha256 script
             recovery_blocks := recovery_blocks
             recovery_days := recovery_blocks / 144
             sorted_pubkeys := sortedPks }
    else none
  | _, _, _ => none

/-- Fuel-indexed variant of create_timelocked_witness_script over Python
integer timelocks, making explicit that the recovery_blocks argument is
handed to push_int with no sign check; returns the witness script bytes,
or none when a parse fails or the push_int loop has not terminated within
the fuel. -/
def create_timelocked_witness_script_int (fuel : Nat)
    (borrowerHex investorHex platformHex : String) (recovery_blocks : Int) :
    Option (List Nat) :=
  match pyFromhex (strTrim borrowerHex), pyFromhex (strTrim investorHex),
      pyFromhex (strTrim platformHex) with
  | some borrowerPk, some investorPk, some platformPk =>
    if borrowerPk.length ≤ 255 ∧ investorPk.length ≤ 255 ∧ platformPk.length ≤ 255 then
      match push_int_int fuel recovery_blocks with
      | none => none
      | some timelockBytes =>
        let sortedPks :=
        List.insertionSort (fun x y => bytesLe x y = true) [borrowerPk, investorPk, platformPk]
        some ([0x63] ++ (borrowerPk.length :: borrowerPk) ++ [0xad]
          ++ timelockBytes ++ [0xb2, 0x75, 0x51, 0x67, 0x53]
          ++ (sortedPks.flatMap (fun pk => pk.length :: pk)) ++ [0x53, 0xae, 0x68])
    else none
  | _, _, _ => none

/-- PSBT magic bytes. -/
def PSBT_MAGIC : List Nat := [0x70, 0x73, 0x62, 0x74, 0xff]

/-- Two little-endian bytes of a 16-bit value. -/
def u16le (n : Nat) : List Nat := [n &&& 0xff, (n >>> 8) &&& 0xff]

/-- Four little-endian bytes of a 32-bit value. -/
def u32le (n : Nat) : List Nat :=
  [n &&& 0xff, (n >>> 8) &&& 0xff, (n >>> 16) &&& 0xff, (n >>> 24) &&& 0xff]

/-- Eight little-endian bytes of a 64-bit value. -/
def u64le (n : Nat) : List Nat :=
  [n &&& 0xff, (n >>> 8) &&& 0xff, (n >>> 16) &&& 0xff, (n >>> 24) &&& 0xff,
   (n >>> 32) &&& 0xff, (n >>> 40) &&& 0xff, (n >>> 48) &&& 0xff, (n >>> 56) &&& 0xff]

/-- CompactSize varint of a length (the three branches of write_with_length). -/
def compactSize (n : Nat) : List Nat :=
  if n < 0xfd then [n]
  else if n ≤ 0xffff then 0xfd :: u16le n
  else 0xfe :: u32le n

/-- Embeds write_with_length: CompactSize prefix then the data; a length
of 2 to the 32 or more would make the struct pack raise, modelled as none. -/
def write_with_length (data : List Nat) : Option (List Nat) :=
  if data.length < 4294967296 then some (compactSize data.length ++ data) else none

/-- Serialization of one transaction output inside create_unsigned_psbt:
eight value bytes, then the length-prefixed scriptPubKey obtained by
decoding the bech32 destination address; a non-bech32 address raises,
modelled as none. -/
def serializeOutput (out : String × Nat) : Option (List Nat) :=
  if out.2 < 18446744073709551616 then
    if pyStartswith out.1 "tb1" ∨ pyStartswith out.1 "bc1" then
      match decode_bech32_to_scriptpubkey out.1 with
      | some spk => if spk.length ≤ 255 then some (u64le out.2 ++ spk.length :: spk) else none
      | none => none
    else none
  else none

/-- Embeds create_unsigned_psbt: serialize the unsigned transaction
(version 2, one input, the given outputs, locktime 0), then the PSBT
container (magic, global unsigned-tx entry, per-input witness-UTXO and
witness-script entries, one empty map per output), base64 encoded.  The
network parameter is accepted and unused, as in the source. -/
def create_unsigned_psbt (input_txid : String) (input_vout input_value : Nat)
    (witness_script_hex : String) (outputs : List (String × Nat)) (sequence : Nat)
    (network : String) : Option String :=
  match pyFromhex input_txid, pyFromhex witness_script_hex with
  | some txidBytes, some witness_script =>
    if input_vout < 4294967296 ∧ sequence < 4294967296 ∧ outputs.length ≤ 255
        ∧ input_value < 18446744073709551616 then
      match outputs.mapM serializeOutput with
      | some outChunks =>
        let unsignedTx := u32le 2 ++ [0x01] ++ txidBytes.reverse ++ u32le input_vout ++ [0x00]
          ++ u32le sequence ++ [outputs.length] ++ outChunks.flatten ++ u32le 0
        let scriptHash := sha256 witness_script
        let scriptPubkey := [0x00, 0x20] ++ scriptHash
        let witnessUtxo := u64le input_value ++ scriptPubkey.length :: scriptPubkey
        match write_with_length unsignedTx, write_with_length witnessUtxo,
            write_with_length witness_script with
        | some wtx, some wutxo, some wws =>
          some (base64Encode (PSBT_MAGIC ++ [0x01, 0x00] ++ wtx ++ [0x00]
            ++ [0x01, 0x01] ++ wutxo ++ [0x01, 0x05] ++ wws ++ [0x00]
            ++ List.replicate outputs.length 0x00))
        | _, _, _ => none
      | none => none
    else none
  | _, _ => none

/-- Modelled IEEE-754 evaluation of the Python expression int(n * 0.7):
the exact product of n (exactly representable for n below 2 to the 53)
with the double closest to 0.7 (whose significand over 2 to the 52 is
3152519739159347), rounded to 53 significant bits with ties to even, then
truncated toward zero. -/
def mulPointSeven (n : Nat) : Nat :=
  let p := n * 3152519739159347
  let bl := natBits p
  let r :=
    if bl ≤ 53 then p
    else
      let k := bl - 53
      let q := p >>> k
      let rem := p - (q <<< k)
      let half := 1 <<< (k - 1)
      let q2 := if half < rem ∨ (rem = half ∧ q % 2 = 1) then q + 1 else q
      q2 <<< k
  r >>> 52

/-- The four generated PSBT template strings. -/
structure PsbtTemplates where
  psbt_repayment : String
  psbt_default : String
  psbt_liquidation : String
  psbt_recovery : String
deriving DecidableEq, Repr

/-- The output value computed by generate_psbt_templates: input value minus
the fixed 500-satoshi fee estimate, floored at the 546-satoshi dust limit.
Nat subtraction truncates at zero, which agrees with the Python max since
the dust limit dominates whenever the difference is not positive. -/
def templatesOutputValue (input_value : Nat) : Nat :=
  Nat.max (input_value - 500) 546

/-- Embeds generate_psbt_templates: compute the fee-adjusted output value
and the 70/30 liquidation split, then build the four unsigned PSBTs.  The
escrow_result argument of the source is consumed only through its
witness_script hex field, which is taken directly here. -/
def generate_psbt_templates (witness_script_hex : String)
    (borrower_address lender_address : String) (input_txid : String)
    (input_vout input_value : Nat) (recovery_blocks : Nat) (network : String) :
    Option PsbtTemplates :=
  let outputValue := templatesOutputValue input_value
  let lenderShare := mulPointSeven outputValue
  let borrowerShare := outputValue - lenderShare
  match
    create_unsigned_psbt input_txid input_vout input_value witness_script_hex
      [(borrower_address, outputValue)] 0xffffffff network,
    create_unsigned_psbt input_txid input_vout input_value witness_script_hex
      [(lender_address, outputValue)] 0xffffffff network,
    create_unsigned_psbt input_txid input_vout input_value witness_script_hex
      [(lender_address, lenderShare), (borrower_address, borrowerShare)] 0xffffffff network,
    create_unsigned_psbt input_txid input_vout input_value witness_script_hex
      [(borrower_address, outputValue)] recovery_blocks network with
  | some r, some d, some l, some rc => some ⟨r, d, l, rc⟩
  | _, _, _, _ => none

/-! Helper lemmas. -/

theorem sha256_length (msg : List Nat) : (sha256 msg).length = 32 := by
  simp [sha256, wordBytesBE]

theorem wordBytesBE_lt (w : Nat) : ∀ x ∈ wordBytesBE w, x < 256 := by
  intro x hx
  simp only [wordBytesBE, List.mem_cons, List.not_mem_nil, or_false] at hx
  have h255 : (255 : Nat) < 256 := by norm_num
  rcases hx with rfl | rfl | rfl | rfl <;> exact lt_of_le_of_lt Nat.and_le_right h255

theorem sha256_bytes_lt (msg : List Nat) : ∀ x ∈ sha256 msg, x < 256 := by
  intro x hx
  simp only [sha256, List.mem_flatMap] at hx
  obtain ⟨w, _, hw⟩ := hx
  exact wordBytesBE_lt w x hw

theorem and_255_eq_mod (n : Nat) : n &&& 255 = n % 256 :=
  Nat.and_pow_two_sub_one_eq_mod n 8

theorem shiftRight8_eq_div (n : Nat) : n >>> 8 = n / 256 := by
  simpa using Nat.shiftRight_eq_div_pow n 8

/-- Little-endian base-256 digit list of a positive value, as described by
the spec (empty list for zero). -/
def leBytes (v : Nat) : List Nat :=
  if v = 0 then [] else (v % 256) :: leBytes (v / 256)
termination_by v
decreasing_by exact Nat.div_lt_self (Nat.pos_of_ne_zero (by assumption)) (by norm_num)

theorem pushIntBytes_eq_leBytes (v : Nat) : pushIntBytes v = leBytes v := by
  induction v using Nat.strong_induction_on with
  | _ v ih =>
    rw [pushIntBytes, leBytes]
    by_cases h : v = 0
    · simp [h]
    · have hlt : v >>> 8 < v := by
        rw [shiftRight8_eq_div]
        exact Nat.div_lt_self (Nat.pos_of_ne_zero h) (by norm_num)
      simp only [h, dite_false, if_false]
      rw [and_255_eq_mod, shiftRight8_eq_div, ← shiftRight8_eq_div v, ih _ hlt]

theorem convertbitsEmitF_bounds (tobits maxv acc : Nat) :
    ∀ fuel bits, ∀ x ∈ (convertbitsEmitF tobits maxv acc fuel bits).1, x ≤ maxv := by
  intro fuel
  induction fuel with
  | zero => intro bits x hx; simp [convertbitsEmitF] at hx
  | succ fuel ih =>
    intro bits x hx
    rw [convertbitsEmitF] at hx
    split at hx
    · rcases List.mem_cons.mp hx with rfl | hx2
      · exact Nat.and_le_right
      · exact ih (bits - tobits) x hx2
    · simp at hx

theorem convertbitsEmit_bounds (tobits maxv acc : Nat) :
    ∀ bits, ∀ x ∈ (convertbitsEmit tobits maxv acc bits).1, x ≤ maxv := by
  intro bits
  exact convertbitsEmitF_bounds tobits maxv acc bits bits

theorem convertbitsGo_bounds (frombits tobits maxv maxAcc : Nat) :
    ∀ (l : List Nat) (acc bits : Nat) (res : List Nat × Nat × Nat),
      convertbitsGo frombits tobits maxv maxAcc l acc bits = some res →
      ∀ x ∈ res.1, x ≤ maxv := by
  intro l
  induction l with
  | nil =>
    intro acc bits res h x hx
    simp only [convertbitsGo, Option.some.injEq] at h
    rw [← h] at hx
    simp at hx
  | cons v rest ih =>
    intro acc bits res h x hx
    simp only [convertbitsGo] at h
    split at h
    · exact absurd h (by simp)
    · split at h
      · exact absurd h (by simp)
      · rename_i heq
        simp only [Option.some.injEq] at h
        rw [← h] at hx
        rcases List.mem_append.mp hx with hx1 | hx2
        · exact convertbitsEmit_bounds _ _ _ _ x hx1
        · exact ih _ _ _ heq x hx2

theorem convertbitsGo_isSome (frombits tobits maxv maxAcc : Nat) :
    ∀ (l : List Nat) (acc bits : Nat), (∀ v ∈ l, v >>> frombits = 0) →
      ∃ res, convertbitsGo frombits tobits maxv maxAcc l acc bits = some res := by
  intro l
  induction l with
  | nil => intro acc bits _; exact ⟨_, rfl⟩
  | cons v rest ih =>
    intro acc bits hv
    have hv0 : v >>> frombits = 0 := hv v (by simp)
    obtain ⟨⟨l2, a2, b2⟩, ht⟩ := ih (((acc <<< frombits) ||| v) &&& maxAcc)
      (convertbitsEmit tobits maxv (((acc <<< frombits) ||| v) &&& maxAcc) (bits + frombits)).2
      (fun x hx => hv x (by simp [hx]))
    refine ⟨((convertbitsEmit tobits maxv (((acc <<< frombits) ||| v) &&& maxAcc)
      (bits + frombits)).1 ++ l2, a2, b2), ?_⟩
    simp only [convertbitsGo, hv0, ne_eq, not_true_eq_false, if_false, ite_false]
    rw [ht]

theorem convertbits_8_5_isSome (l : List Nat) (h : ∀ v ∈ l, v < 256) :
    ∃ r, convertbits l 8 5 true = some r ∧ ∀ x ∈ r, x < 32 := by
  have h0 : ∀ v ∈ l, v >>> 8 = 0 := by
    intro v hv
    rw [shiftRight8_eq_div]
    exact Nat.div_eq_of_lt (h v hv)
  obtain ⟨⟨ret, acc, bits⟩, hgo⟩ := convertbitsGo_isSome 8 5 31 4095 l 0 0 h0
  have hb : ∀ x ∈ ret, x ≤ 31 := convertbitsGo_bounds 8 5 31 4095 l 0 0 _ hgo
  have e1 : ((1 : Nat) <<< 5 - 1) = 31 := by norm_num [Nat.shiftLeft_eq]
  have e2 : ((1 : Nat) <<< 12 - 1) = 4095 := by norm_num [Nat.shiftLeft_eq]
  unfold convertbits
  rw [e1, e2]
  dsimp only
  rw [hgo]
  dsimp only
  by_cases hbits : bits = 0
  · refine ⟨ret, by simp [hbits], fun x hx => lt_of_le_of_lt (hb x hx) (by norm_num)⟩
  · refine ⟨ret ++ [(acc <<< (5 - bits)) &&& 31], by simp [hbits], ?_⟩
    intro x hx
    rcases List.mem_append.mp hx with hx1 | hx2
    · exact lt_of_le_of_lt (hb x hx1) (by norm_num)
    · simp only [List.mem_singleton] at hx2
      subst hx2
      exact lt_of_le_of_lt Nat.and_le_right (by norm_num)

theorem checksum_bounds (hrp : String) (data : List Nat) :
    ∀ x ∈ bech32_create_checksum hrp data, x < 32 := by
  intro x hx
  simp only [bech32_create_checksum, List.mem_map] at hx
  obtain ⟨i, _, hi⟩ := hx
  rw [← hi]
  exact lt_of_le_of_lt Nat.and_le_right (by norm_num)

theorem charset_mapM_isSome (l : List Nat) (h : ∀ d ∈ l, d < 32) :
    ∃ cs, l.mapM (fun d => CHARSET[d]?) = some cs := by
  induction l with
  | nil => exact ⟨[], rfl⟩
  | cons d rest ih =>
    obtain ⟨cs, hcs⟩ := ih (fun x hx => h x (by simp [hx]))
    have hd : d < CHARSET.length := by
      have : CHARSET.length = 32 := by decide
      rw [this]
      exact h d (by simp)
    obtain ⟨c, hc⟩ : ∃ c, CHARSET[d]? = some c := by
      exact ⟨CHARSET[d], by simp [List.getElem?_eq_some_iff, hd]⟩
    refine ⟨c :: cs, ?_⟩
    rw [List.mapM_cons, hc, hcs]
    rfl

theorem encode_bech32_isSome (hrp : String) (witver : Nat) (prog : List Nat)
    (hv : witver < 32) (hb : ∀ x ∈ prog, x < 256) :
    ∃ s, encode_bech32_address hrp witver prog = some s := by
  obtain ⟨cb, hcb, hcb32⟩ := convertbits_8_5_isSome prog hb
  have hsyms : ∀ d ∈ (witver :: cb) ++ bech32_create_checksum hrp (witver :: cb), d < 32 := by
    intro d hd
    rcases List.mem_append.mp hd with hd1 | hd2
    · rcases List.mem_cons.mp hd1 with rfl | hd1b
      · exact hv
      · exact hcb32 d hd1b
    · exact checksum_bounds hrp (witver :: cb) d hd2
  obtain ⟨cs, hcs⟩ := charset_mapM_isSome _ hsyms
  refine ⟨hrp ++ "1" ++ String.mk cs, ?_⟩
  unfold encode_bech32_address
  rw [hcb]
  simp only [List.cons_append] at hcs ⊢
  rw [hcs]

theorem char_toNat_inj (a b : Char) (h : a.toNat = b.toNat) : a = b :=
  Char.ext (UInt32.ext h)

theorem charsLe_total : ∀ a b : List Char, charsLe a b = true ∨ charsLe b a = true := by
  intro a
  induction a with
  | nil => intro b; left; rfl
  | cons x xs ih =>
    intro b
    cases b with
    | nil => right; rfl
    | cons y ys =>
      simp only [charsLe]
      by_cases h1 : x.toNat < y.toNat
      · left; simp [h1]
      · by_cases h2 : y.toNat < x.toNat
        · right; simp [h2, (by omega : ¬ x.toNat < y.toNat)]
        · rcases ih ys with h | h
          · left; simp [h1, h2, h]
          · right; simp [h1, h2, h]

theorem charsLe_trans : ∀ a b c : List Char,
    charsLe a b = true → charsLe b c = true → charsLe a c = true := by
  intro a
  induction a with
  | nil => intro b c _ _; rfl
  | cons x xs ih =>
    intro b c hab hbc
    cases b with
    | nil => simp [charsLe] at hab
    | cons y ys =>
      cases c with
      | nil => simp [charsLe] at hbc
      | cons z zs =>
        simp only [charsLe] at hab hbc ⊢
        by_cases h1 : x.toNat < y.toNat
        · by_cases h3 : y.toNat < z.toNat
          · rw [if_pos (by omega)]
          · by_cases h4 : z.toNat < y.toNat
            · simp [h3, h4] at hbc
            · rw [if_pos (by omega)]
        · by_cases h2 : y.toNat < x.toNat
          · simp [h1, h2] at hab
          · rw [if_neg h1, if_neg h2] at hab
            by_cases h3 : y.toNat < z.toNat
            · rw [if_pos (by omega)]
            · by_cases h4 : z.toNat < y.toNat
              · simp [h3, h4] at hbc
              · rw [if_neg h3, if_neg h4] at hbc
                rw [if_neg (by omega), if_neg (by omega)]
                exact ih ys zs hab hbc

theorem charsLe_antisymm : ∀ a b : List Char,
    charsLe a b = true → charsLe b a = true → a = b := by
  intro a
  induction a with
  | nil =>
    intro b _ hba
    cases b with
    | nil => rfl
    | cons y ys => simp [charsLe] at hba
  | cons x xs ih =>
    intro b hab hba
    cases b with
    | nil => simp [charsLe] at hab
    | cons y ys =>
      simp only [charsLe] at hab hba
      by_cases h1 : x.toNat < y.toNat
      · rw [if_neg (by omega : ¬ y.toNat < x.toNat), if_pos h1] at hba
        exact absurd hba (by simp)
      · by_cases h2 : y.toNat < x.toNat
        · rw [if_neg h1, if_pos h2] at hab
          exact absurd hab (by simp)
        · rw [if_neg h1, if_neg h2] at hab
          rw [if_neg h2, if_neg h1] at hba
          have hxy : x = y := char_toNat_inj x y (by omega)
          rw [hxy, ih ys hab hba]

theorem sortKeys_eq_of_perm (l₁ l₂ : List String) (h : l₁.Perm l₂) :
    sortKeys l₁ = sortKeys l₂ := by
  haveI : IsTotal String (fun a b => strLeB a b = true) :=
    ⟨fun a b => charsLe_total a.toList b.toList⟩
  haveI : IsTrans String (fun a b => strLeB a b = true) :=
    ⟨fun a b c => charsLe_trans a.toList b.toList c.toList⟩
  haveI : IsAntisymm String (fun a b => strLeB a b = true) :=
    ⟨fun a b h1 h2 => String.ext (charsLe_antisymm a.toList b.toList h1 h2)⟩
  unfold sortKeys
  exact List.eq_of_perm_of_sorted
    ((List.perm_insertionSort _ l₁).trans (h.trans (List.perm_insertionSort _ l₂).symm))
    (List.sorted_insertionSort _ l₁) (List.sorted_insertionSort _ l₂)

theorem push_int_loop_terminates (m : Nat) :
    ∀ v : Int, 0 ≤ v → v.toNat ≤ m → (push_int_loop m v).isSome = true := by
  induction m with
  | zero =>
    intro v hv hm
    have h0 : v = 0 := by omega
    simp [push_int_loop, h0]
  | succ m ih =>
    intro v hv hm
    by_cases h0 : v = 0
    · simp [push_int_loop, h0]
    · have hd : (0 : Int) ≤ v.fdiv 256 := Int.fdiv_nonneg hv (by norm_num)
      have hlt : (v.fdiv 256).toNat ≤ m := by
        rw [Int.fdiv_eq_ediv _ (by norm_num)]
        omega
      have hsome := ih (v.fdiv 256) hd hlt
      simp only [push_int_loop, h0, if_false, ite_false]
      cases hres : push_int_loop m (v.fdiv 256) with
      | none => rw [hres] at hsome; simp at hsome
      | some l => simp

theorem push_int_loop_neg (fuel : Nat) : ∀ v : Int, v < 0 → push_int_loop fuel v = none := by
  induction fuel with
  | zero =>
    intro v hv
    simp only [push_int_loop, ite_eq_right_iff]
    omega
  | succ m ih =>
    intro v hv
    have hd : v.fdiv 256 < 0 := by
      rw [Int.fdiv_eq_ediv _ (by norm_num)]
      exact Int.ediv_neg' hv (by norm_num)
    have hne : ¬ v = 0 := by omega
    simp [push_int_loop, hne, ih _ hd]

theorem push_int_int_neg (fuel : Nat) (v : Int) (hv : v < 0) :
    push_int_int fuel v = none := by
  have hloop := push_int_loop_neg fuel v hv
  simp only [push_int_int, hloop]
  rw [if_neg (by omega), if_neg (by omega)]

/-- Characterization of a successful escrow derivation: valid network,
no empty key string, all three validations succeed, and the result is the
record built from the sorted canonical keys. -/
theorem escrow_ok_iff (b i p network : String) (r : EscrowResult) :
    create_multisig_escrow b i p network = Except.ok r ↔
      (network = "testnet" ∨ network = "mainnet")
      ∧ ¬ (b = "" ∨ i = "" ∨ p = "")
      ∧ ∃ kb ki kp, validate_pubkey b = Except.ok kb ∧ validate_pubkey i = Except.ok ki
          ∧ validate_pubkey p = Except.ok kp
          ∧ r = escrowBuild (sortKeys [kb, ki, kp]) (b, i, p) network := by
  constructor
  · intro hr
    unfold create_multisig_escrow at hr
    by_cases hnet : network = "testnet" ∨ network = "mainnet"
    swap
    · rw [if_neg hnet] at hr; exact absurd hr (by simp)
    rw [if_pos hnet] at hr
    by_cases hemp : b = "" ∨ i = "" ∨ p = ""
    · rw [if_pos hemp] at hr; exact absurd hr (by simp)
    rw [if_neg hemp] at hr
    cases hvb : validate_pubkey b with
    | error e => rw [hvb] at hr; exact absurd hr (by simp)
    | ok kb =>
    cases hvi : validate_pubkey i with
    | error e => rw [hvb, hvi] at hr; exact absurd hr (by simp)
    | ok ki =>
    cases hvp : validate_pubkey p with
    | error e => rw [hvb, hvi, hvp] at hr; exact absurd hr (by simp)
    | ok kp =>
    rw [hvb, hvi, hvp] at hr
    simp only [Except.ok.injEq] at hr
    exact ⟨hnet, hemp, kb, ki, kp, rfl, rfl, rfl, hr.symm⟩
  · rintro ⟨hnet, hemp, kb, ki, kp, hvb, hvi, hvp, rfl⟩
    unfold create_multisig_escrow
    rw [if_pos hnet, if_neg hemp, hvb, hvi, hvp]

/-- C1: order independence of escrow derivation — permuting the three key
arguments of create_multisig_escrow leaves the derived witness script
bytes, script hash, and address identical, because the keys are sorted by
their canonical hex form before script construction. -/
theorem escrow_order_independence
    (b i p b2 i2 p2 network : String)
    (hperm : List.Perm [b2, i2, p2] [b, i, p])
    (r : EscrowResult)
    (hr : create_multisig_escrow b i p network = Except.ok r) :
    ∃ r2, create_multisig_escrow b2 i2 p2 network = Except.ok r2
      ∧ r2.witness_script = r.witness_script
      ∧ r2.script_hash = r.script_hash
      ∧ r2.address = r.address := by
  obtain ⟨hnet, hemp, kb, ki, kp, hvb, hvi, hvp, hbuild⟩ := (escrow_ok_iff b i p network r).mp hr
  push_neg at hemp
  have hsub : [b2, i2, p2] ⊆ [b, i, p] := hperm.subset
  have hval : ∀ s ∈ [b, i, p], (∃ k, validate_pubkey s = Except.ok k) ∧ s ≠ "" := by
    intro s hs
    rcases (by simpa using hs : s = b ∨ s = i ∨ s = p) with rfl | rfl | rfl
    exacts [⟨⟨kb, hvb⟩, hemp.1⟩, ⟨⟨ki, hvi⟩, hemp.2.1⟩, ⟨⟨kp, hvp⟩, hemp.2.2⟩]
  obtain ⟨⟨kb2, hvb2⟩, hb2⟩ := hval b2 (hsub (by simp))
  obtain ⟨⟨ki2, hvi2⟩, hi2⟩ := hval i2 (hsub (by simp))
  obtain ⟨⟨kp2, hvp2⟩, hp2⟩ := hval p2 (hsub (by simp))
  have hkperm : List.Perm [kb2, ki2, kp2] [kb, ki, kp] := by
    have hmap := hperm.map
      (fun s => match validate_pubkey s with | Except.ok k => k | Except.error _ => "")
    simpa [hvb, hvi, hvp, hvb2, hvi2, hvp2] using hmap
  have hsorted : sortKeys [kb2, ki2, kp2] = sortKeys [kb, ki, kp] :=
    sortKeys_eq_of_perm _ _ hkperm
  refine ⟨escrowBuild (sortKeys [kb2, ki2, kp2]) (b2, i2, p2) network, ?_, ?_, ?_, ?_⟩
  · exact (escrow_ok_iff b2 i2 p2 network _).mpr
      ⟨hnet, by push_neg; exact ⟨hb2, hi2, hp2⟩, kb2, ki2, kp2, hvb2, hvi2, hvp2, rfl⟩
  · rw [hbuild]; simp [escrowBuild, hsorted]
  · rw [hbuild]; simp [escrowBuild, hsorted]
  · rw [hbuild]; simp [escrowBuild, hsorted]

/-- C2: P2WSH derivation correctness — for every successful escrow
derivation the script hash is the SHA-256 of the witness script (32
bytes), the scriptPubKey is the 34-byte sequence 0x00 0x20 followed by
that hash, and the address is the bech32 encoding of the hash with
witness version 0 under hrp tb (testnet) or bc (mainnet). -/
theorem escrow_p2wsh_derivation
    (b i p network : String) (r : EscrowResult)
    (hr : create_multisig_escrow b i p network = Except.ok r) :
    (network = "testnet" ∨ network = "mainnet")
    ∧ r.script_hash = sha256 r.witness_script
    ∧ r.script_hash.length = 32
    ∧ r.script_pubkey = [0x00, 0x20] ++ r.script_hash
    ∧ r.script_pubkey.length = 34
    ∧ r.address = encode_bech32_address (if network = "mainnet" then "bc" else "tb") 0 r.script_hash
    ∧ ∃ s, r.address = some s := by
  obtain ⟨hnet, _, kb, ki, kp, _, _, _, hbuild⟩ := (escrow_ok_iff b i p network r).mp hr
  subst hbuild
  refine ⟨hnet, by simp [escrowBuild], ?_, by simp [escrowBuild], ?_, ?_, ?_⟩
  · simp [escrowBuild, sha256_length]
  · simp [escrowBuild, sha256_length]
  · simp [escrowBuild, hrpOfNetwork]
  · obtain ⟨s, hs⟩ := encode_bech32_isSome (hrpOfNetwork network) 0
      (sha256 (escrowScript (sortKeys [kb, ki, kp]))) (by norm_num)
      (sha256_bytes_lt _)
    exact ⟨s, by simp [escrowBuild, hs]⟩

theorem bytesLe_total : ∀ a b : List Nat, (bytesLe a b || bytesLe b a) = true := by
  intro a
  induction a with
  | nil => intro b; simp [bytesLe]
  | cons x xs ih =>
    intro b
    cases b with
    | nil => simp [bytesLe]
    | cons y ys =>
      simp only [bytesLe]
      by_cases h1 : x < y
      · simp [h1]
      · by_cases h2 : x = y
        · subst h2
          simp only [lt_irrefl, if_false, ite_false, if_pos rfl]
          exact ih ys
        · have h3 : y < x := by omega
          have h4 : ¬ y = x := by omega
          simp [h1, h2, h3, h4]

theorem bytesLe_trans : ∀ a b c : List Nat,
    bytesLe a b = true → bytesLe b c = true → bytesLe a c = true := by
  intro a
  induction a with
  | nil => intro b c _ _; simp [bytesLe]
  | cons x xs ih =>
    intro b c hab hbc
    cases b with
    | nil => simp [bytesLe] at hab
    | cons y ys =>
      cases c with
      | nil => simp [bytesLe] at hbc
      | cons z zs =>
        simp only [bytesLe] at hab hbc ⊢
        by_cases h1 : x < y
        · by_cases h3 : y < z
          · simp [show x < z by omega]
          · by_cases h4 : y = z
            · simp [show x < z by omega]
            · simp [h3, h4] at hbc
        · by_cases h2 : x = y
          · subst h2
            simp only [h1, if_false, ite_false, if_pos rfl] at hab
            by_cases h3 : x < z
            · simp [h3]
            · by_cases h4 : x = z
              · subst h4
                simp only [h1, lt_irrefl, if_false, ite_false, if_pos rfl] at hbc ⊢
                exact ih ys zs hab hbc
              · simp [h3, h4] at hbc
          · simp [h1, h2] at hab

/-- C4: recovery-branch script layout — the timelocked witness script is
exactly OP_IF, a 33-byte push of the borrower key, OP_CHECKSIGVERIFY, the
minimal push of the timelock, OP_CHECKSEQUENCEVERIFY, OP_DROP, OP_TRUE,
OP_ELSE, then OP_3, the three 33-byte key pushes in ascending byte order,
OP_3, OP_CHECKMULTISIG, OP_ENDIF; and the minimal push encodes 0 as 0x00,
1..16 as 0x50 plus the value, and larger values as a length byte followed
by the little-endian bytes with a 0x00 appended when the top byte has its
high bit set. -/
theorem timelocked_witness_script_layout
    (bHex iHex pHex : String) (blocks : Nat) (bb ib pb : List Nat)
    (hbb : pyFromhex (strTrim bHex) = some bb) (hib : pyFromhex (strTrim iHex) = some ib)
    (hpb : pyFromhex (strTrim pHex) = some pb)
    (hlb : bb.length = 33) (hli : ib.length = 33) (hlp : pb.length = 33) :
    create_timelocked_witness_script bHex iHex pHex blocks = some
      { witness_script := [0x63, 33] ++ bb ++ [0xad] ++ push_int blocks
          ++ [0xb2, 0x75, 0x51, 0x67, 0x53]
          ++ (List.insertionSort (fun x y => bytesLe x y = true) [bb, ib, pb]).flatMap (fun pk => 33 :: pk)
          ++ [0x53, 0xae, 0x68]
        script_hash := sha256 ([0x63, 33] ++ bb ++ [0xad] ++ push_int blocks
          ++ [0xb2, 0x75, 0x51, 0x67, 0x53]
          ++ (List.insertionSort (fun x y => bytesLe x y = true) [bb, ib, pb]).flatMap (fun pk => 33 :: pk)
          ++ [0x53, 0xae, 0x68])
        recovery_blocks := blocks
        recovery_days := blocks / 144
        sorted_pubkeys := List.insertionSort (fun x y => bytesLe x y = true) [bb, ib, pb] }
    ∧ (List.insertionSort (fun x y => bytesLe x y = true) [bb, ib, pb]).Perm [bb, ib, pb]
    ∧ List.Pairwise (fun x y => bytesLe x y = true) (List.insertionSort (fun x y => bytesLe x y = true) [bb, ib, pb])
    ∧ push_int 0 = [0x00]
    ∧ (∀ v, 1 ≤ v → v ≤ 16 → push_int v = [0x50 + v])
    ∧ (∀ v, 17 ≤ v →
        push_int v = (if (leBytes v).getLastD 0 &&& 0x80 ≠ 0
          then ((leBytes v).length + 1) :: (leBytes v ++ [0x00])
          else (leBytes v).length :: leBytes v)) := by
  haveI : IsTotal (List Nat) (fun x y => bytesLe x y = true) :=
    ⟨fun a b => by simpa [Bool.or_eq_true] using bytesLe_total a b⟩
  haveI : IsTrans (List Nat) (fun x y => bytesLe x y = true) :=
    ⟨fun a b c => bytesLe_trans a b c⟩
  have hmem : ∀ pk ∈ List.insertionSort (fun x y => bytesLe x y = true) [bb, ib, pb],
      pk.length = 33 := by
    intro pk hpk
    have hpk2 : pk ∈ [bb, ib, pb] :=
      (List.perm_insertionSort (fun x y => bytesLe x y = true) [bb, ib, pb]).subset hpk
    rcases (by simpa using hpk2 : pk = bb ∨ pk = ib ∨ pk = pb) with rfl | rfl | rfl
    exacts [hlb, hli, hlp]
  have hflat : (List.insertionSort (fun x y => bytesLe x y = true) [bb, ib, pb]).flatMap (fun pk => pk.length :: pk)
      = (List.insertionSort (fun x y => bytesLe x y = true) [bb, ib, pb]).flatMap (fun pk => 33 :: pk) :=
    List.flatMap_congr (fun pk hpk => by rw [hmem pk hpk])
  refine ⟨?_, List.perm_insertionSort (fun x y => bytesLe x y = true) [bb, ib, pb],
    List.sorted_insertionSort (fun x y => bytesLe x y = true) [bb, ib, pb],
    by simp [push_int], ?_, ?_⟩
  · unfold create_timelocked_witness_script
    rw [hbb, hib, hpb]
    dsimp only
    rw [if_pos ⟨by omega, by omega, by omega⟩]
    rw [hlb, hflat]
    simp [List.append_assoc]
  · intro v h1 h16
    have h0 : ¬ v = 0 := by omega
    simp [push_int, h0, h1, h16]
  · intro v h17
    have h0 : ¬ v = 0 := by omega
    have h16 : ¬ (1 ≤ v ∧ v ≤ 16) := by omega
    unfold push_int
    rw [if_neg h0, if_neg h16]
    dsimp only
    rw [pushIntBytes_eq_leBytes]
    by_cases hpad : (leBytes v).getLastD 0 &&& 0x80 ≠ 0
    · rw [if_pos hpad, if_pos hpad]
      simp
    · rw [if_neg hpad, if_neg hpad]

/-- C9: the verifier never raises — verify_multisig_address is a total
boolean function that returns true exactly when the bech32 address
recomputed from the supplied witness script on the given network equals
the claimed address, and every exception path (unknown network, malformed
hex, encoding failure) yields false. -/
theorem verify_never_raises (address witness_script_hex network : String) :
    verify_multisig_address address witness_script_hex network = true ↔
      ((network = "testnet" ∨ network = "mainnet")
        ∧ ∃ ws, pyFromhex witness_script_hex = some ws
            ∧ encode_bech32_address (hrpOfNetwork network) 0 (sha256 ws) = some address) := by
  by_cases hnet : network = "testnet" ∨ network = "mainnet"
  · cases hws : pyFromhex witness_script_hex with
    | none =>
      have hv : verify_multisig_address address witness_script_hex network = false := by
        unfold verify_multisig_address
        rw [if_pos hnet, hws]
      rw [hv]
      simp [hws]
    | some ws =>
      cases henc : encode_bech32_address (hrpOfNetwork network) 0 (sha256 ws) with
      | none =>
        have hv : verify_multisig_address address witness_script_hex network = false := by
          unfold verify_multisig_address
          rw [if_pos hnet, hws]
          dsimp only
          rw [henc]
        rw [hv]
        constructor
        · intro h
          simp at h
        · rintro ⟨-, ws2, hws2, henc2⟩
          obtain rfl : ws2 = ws := by simpa using hws2.symm
          rw [henc] at henc2
          simp at henc2
      | some calculated =>
        have hv : verify_multisig_address address witness_script_hex network
            = decide (address = calculated) := by
          unfold verify_multisig_address
          rw [if_pos hnet, hws]
          dsimp only
          rw [henc]
        rw [hv]
        constructor
        · intro h
          have haddr : address = calculated := by simpa using h
          exact ⟨hnet, ws, rfl, by rw [henc, haddr]⟩
        · rintro ⟨-, ws2, hws2, henc2⟩
          obtain rfl : ws2 = ws := by simpa using hws2.symm
          rw [henc] at henc2
          have : calculated = address := by simpa using henc2
          simp [this]
  · have hv : verify_multisig_address address witness_script_hex network = false := by
      unfold verify_multisig_address
      rw [if_neg hnet]
    rw [hv]
    simp [hnet]

/-- C10: the push_int while loop terminates for every non-negative Python
integer (the value strictly decreases under the arithmetic right shift)
and never terminates for a negative one, so non-negativity is a genuine
precondition; create_timelocked_witness_script hands its recovery_blocks
argument to push_int without checking it, so a negative timelock makes the
whole script construction diverge. -/
theorem push_int_total_iff_nonneg :
    (∀ v : Int, 0 ≤ v → ∃ fuel, (push_int_loop fuel v).isSome = true)
    ∧ (∀ v : Int, v < 0 → ∀ fuel, push_int_loop fuel v = none)
    ∧ (∀ v : Int, v < 0 → ∀ fuel bHex iHex pHex,
        create_timelocked_witness_script_int fuel bHex iHex pHex v = none) := by
  refine ⟨fun v hv => ⟨v.toNat, push_int_loop_terminates v.toNat v hv le_rfl⟩,
    fun v hv fuel => push_int_loop_neg fuel v hv, fun v hv fuel b i p => ?_⟩
  unfold create_timelocked_witness_script_int
  cases hfb : pyFromhex (strTrim b) with
  | none => rfl
  | some bpk =>
    cases hfi : pyFromhex (strTrim i) with
    | none => rfl
    | some ipk =>
      cases hfp : pyFromhex (strTrim p) with
      | none => rfl
      | some ppk =>
        dsimp only
        split
        · rw [push_int_int_neg fuel v hv]
        · rfl

/-- Validity of one PSBT destination output together with its decoded
scriptPubKey: bech32 address family, successful decode, a scriptPubKey
that fits its one-byte length prefix, and a value that fits eight bytes. -/
def validOutput (o : String × Nat) (spk : List Nat) : Prop :=
  (pyStartswith o.1 "tb1" ∨ pyStartswith o.1 "bc1")
  ∧ decode_bech32_to_scriptpubkey o.1 = some spk
  ∧ spk.length ≤ 255
  ∧ o.2 < 18446744073709551616

theorem mapM_serializeOutput (outputs : List (String × Nat)) (spks : List (List Nat))
    (h : List.Forall₂ validOutput outputs spks) :
    outputs.mapM serializeOutput
      = some ((outputs.zip spks).map (fun os : (String × Nat) × List Nat => u64le os.1.2 ++ os.2.length :: os.2)) := by
  induction h with
  | nil => rfl
  | cons hpair hrest ih =>
    rename_i o spk outs spks2
    obtain ⟨hstart, hdec, hlen, hval⟩ := hpair
    have hser : serializeOutput o = some (u64le o.2 ++ spk.length :: spk) := by
      simp [serializeOutput, hval, hstart, hdec, hlen]
    rw [List.mapM_cons, hser, ih]
    rfl

theorem serialize_chunks_length (outputs : List (String × Nat)) (spks : List (List Nat))
    (h : List.Forall₂ validOutput outputs spks) :
    (((outputs.zip spks).map (fun os : (String × Nat) × List Nat => u64le os.1.2 ++ os.2.length :: os.2)).flatten).length
      ≤ 264 * outputs.length := by
  induction h with
  | nil => simp
  | cons hpair hrest ih =>
    rename_i o spk outs spks2
    obtain ⟨-, -, hlen, -⟩ := hpair
    simp only [List.zip_cons_cons, List.map_cons, List.flatten_cons, List.length_append,
      List.length_cons]
    have h8 : (u64le o.2).length = 8 := by simp [u64le]
    omega

theorem write_with_length_eq (data : List Nat) (h : data.length < 4294967296) :
    write_with_length data = some (compactSize data.length ++ data) := by
  simp [write_with_length, h]

/-- Shared layout lemma for create_unsigned_psbt: under valid inputs the
returned string is the base64 encoding of the exact PSBT byte sequence
described by BIP-174 for this builder. -/
theorem create_unsigned_psbt_eq
    (input_txid witness_script_hex network : String)
    (input_vout input_value sequence : Nat)
    (outputs : List (String × Nat)) (txidB wsB : List Nat) (spks : List (List Nat))
    (htx : pyFromhex input_txid = some txidB)
    (htxl : txidB.length = 32)
    (hws : pyFromhex witness_script_hex = some wsB)
    (hwsl : wsB.length < 4294967296)
    (hvout : input_vout < 4294967296)
    (hseq : sequence < 4294967296)
    (hval : input_value < 18446744073709551616)
    (hcount : outputs.length ≤ 255)
    (hdec : List.Forall₂ validOutput outputs spks) :
    create_unsigned_psbt input_txid input_vout input_value witness_script_hex outputs
        sequence network =
      some (base64Encode (
        [0x70, 0x73, 0x62, 0x74, 0xff]
        ++ [0x01, 0x00]
        ++ compactSize (u32le 2 ++ [0x01] ++ txidB.reverse ++ u32le input_vout ++ [0x00]
            ++ u32le sequence ++ [outputs.length]
            ++ ((outputs.zip spks).map (fun os : (String × Nat) × List Nat => u64le os.1.2 ++ os.2.length :: os.2)).flatten
            ++ u32le 0).length
        ++ (u32le 2 ++ [0x01] ++ txidB.reverse ++ u32le input_vout ++ [0x00]
            ++ u32le sequence ++ [outputs.length]
            ++ ((outputs.zip spks).map (fun os : (String × Nat) × List Nat => u64le os.1.2 ++ os.2.length :: os.2)).flatten
            ++ u32le 0)
        ++ [0x00]
        ++ [0x01, 0x01]
        ++ compactSize 43
        ++ (u64le input_value ++ [34] ++ [0x00, 0x20] ++ sha256 wsB)
        ++ [0x01, 0x05]
        ++ compactSize wsB.length
        ++ wsB
        ++ [0x00]
        ++ List.replicate outputs.length 0x00)) := by
  unfold create_unsigned_psbt
  rw [htx, hws]
  dsimp only
  rw [if_pos ⟨hvout, hseq, hcount, hval⟩, mapM_serializeOutput outputs spks hdec]
  dsimp only
  have hchunks := serialize_chunks_length outputs spks hdec
  have hsl : ([0x00, 0x20] ++ sha256 wsB).length = 34 := by
    simp [sha256_length]
  have htxbound : (u32le 2 ++ [0x01] ++ txidB.reverse ++ u32le input_vout ++ [0x00]
      ++ u32le sequence ++ [outputs.length]
      ++ ((outputs.zip spks).map (fun os : (String × Nat) × List Nat => u64le os.1.2 ++ os.2.length :: os.2)).flatten
      ++ u32le 0).length < 4294967296 := by
    simp only [List.length_append, List.length_cons, List.length_nil, List.length_reverse,
      htxl, u32le, List.length_singleton]
    omega
  have hutxbound : (u64le input_value
      ++ ([0x00, 0x20] ++ sha256 wsB).length :: ([0x00, 0x20] ++ sha256 wsB)).length
      < 4294967296 := by
    simp only [List.length_append, List.length_cons, sha256_length, u64le]
    norm_num
  rw [write_with_length_eq _ htxbound, write_with_length_eq _ hutxbound,
    write_with_length_eq _ hwsl]
  dsimp only
  rw [hsl]
  have hulen : (u64le input_value ++ 34 :: ([0x00, 0x20] ++ sha256 wsB)).length = 43 := by
    simp [u64le, sha256_length]
  rw [hulen]
  simp only [PSBT_MAGIC, List.append_assoc, List.cons_append, List.nil_append,
    List.singleton_append]

/-- C3: PSBT byte layout — for every valid input, create_unsigned_psbt
returns the base64 encoding of exactly the magic, the global map with the
CompactSize-prefixed serialized unsigned transaction terminated by 0x00,
the per-input map with the witness-UTXO (key type 0x01) and witness-script
(key type 0x05) entries terminated by 0x00, and one empty (0x00) output
map per declared transaction output. -/
theorem psbt_byte_layout
    (input_txid witness_script_hex network : String)
    (input_vout input_value sequence : Nat)
    (outputs : List (String × Nat)) (txidB wsB : List Nat) (spks : List (List Nat))
    (houts : outputs ≠ [])
    (htx : pyFromhex input_txid = some txidB)
    (htxl : txidB.length = 32)
    (hws : pyFromhex witness_script_hex = some wsB)
    (hwsl : wsB.length < 4294967296)
    (hvout : input_vout < 4294967296)
    (hseq : sequence < 4294967296)
    (hval : input_value < 18446744073709551616)
    (hcount : outputs.length ≤ 255)
    (hdec : List.Forall₂ validOutput outputs spks) :
    create_unsigned_psbt input_txid input_vout input_value witness_script_hex outputs
        sequence network =
      some (base64Encode (
        [0x70, 0x73, 0x62, 0x74, 0xff]
        ++ [0x01, 0x00]
        ++ compactSize (u32le 2 ++ [0x01] ++ txidB.reverse ++ u32le input_vout ++ [0x00]
            ++ u32le sequence ++ [outputs.length]
            ++ ((outputs.zip spks).map
                (fun os : (String × Nat) × List Nat => u64le os.1.2 ++ os.2.length :: os.2)).flatten
            ++ u32le 0).length
        ++ (u32le 2 ++ [0x01] ++ txidB.reverse ++ u32le input_vout ++ [0x00]
            ++ u32le sequence ++ [outputs.length]
            ++ ((outputs.zip spks).map
                (fun os : (String × Nat) × List Nat => u64le os.1.2 ++ os.2.length :: os.2)).flatten
            ++ u32le 0)
        ++ [0x00]
        ++ [0x01, 0x01]
        ++ compactSize 43
        ++ (u64le input_value ++ [34] ++ [0x00, 0x20] ++ sha256 wsB)
        ++ [0x01, 0x05]
        ++ compactSize wsB.length
        ++ wsB
        ++ [0x00]
        ++ List.replicate outputs.length 0x00)) :=
  create_unsigned_psbt_eq input_txid witness_script_hex network input_vout input_value
    sequence outputs txidB wsB spks htx htxl hws hwsl hvout hseq hval hcount hdec

/-- C7 amended: no InsufficientValue failure exists — whenever the UTXO
input value is at most the 500-satoshi fee estimate plus the 546-satoshi
dust limit, generate_psbt_templates still succeeds, flooring the output
value at the positive dust limit of 546 satoshis. -/
theorem generate_psbt_dust_floor
    (witness_script_hex borrower_address lender_address input_txid network : String)
    (input_vout input_value recovery_blocks : Nat)
    (txidB wsB bSpk lSpk : List Nat)
    (htx : pyFromhex input_txid = some txidB) (htxl : txidB.length = 32)
    (hws : pyFromhex witness_script_hex = some wsB) (hwsl : wsB.length < 4294967296)
    (hb : pyStartswith borrower_address "tb1" ∨ pyStartswith borrower_address "bc1")
    (hbdec : decode_bech32_to_scriptpubkey borrower_address = some bSpk)
    (hbl : bSpk.length ≤ 255)
    (hl : pyStartswith lender_address "tb1" ∨ pyStartswith lender_address "bc1")
    (hldec : decode_bech32_to_scriptpubkey lender_address = some lSpk)
    (hll : lSpk.length ≤ 255)
    (hvout : input_vout < 4294967296)
    (hblocks : recovery_blocks < 4294967296)
    (hiv : input_value ≤ 1046) :
    templatesOutputValue input_value = 546
    ∧ 0 < templatesOutputValue input_value
    ∧ (generate_psbt_templates witness_script_hex borrower_address lender_address
        input_txid input_vout input_value recovery_blocks network).isSome = true := by
  have hov : templatesOutputValue input_value = 546 := by
    unfold templatesOutputValue
    exact Nat.max_eq_right (by omega)
  have hval : input_value < 18446744073709551616 := by omega
  have hls : mulPointSeven 546 = 382 := by decide
  refine ⟨hov, by rw [hov]; norm_num, ?_⟩
  unfold generate_psbt_templates
  dsimp only
  rw [hov, hls]
  have hbv : List.Forall₂ validOutput [(borrower_address, 546)] [bSpk] :=
    List.Forall₂.cons ⟨hb, hbdec, hbl, by norm_num⟩ List.Forall₂.nil
  have hlv : List.Forall₂ validOutput [(lender_address, 546)] [lSpk] :=
    List.Forall₂.cons ⟨hl, hldec, hll, by norm_num⟩ List.Forall₂.nil
  have hsplit : List.Forall₂ validOutput
      [(lender_address, 382), (borrower_address, 546 - 382)] [lSpk, bSpk] :=
    List.Forall₂.cons ⟨hl, hldec, hll, by norm_num⟩
      (List.Forall₂.cons ⟨hb, hbdec, hbl, by norm_num⟩ List.Forall₂.nil)
  rw [create_unsigned_psbt_eq input_txid witness_script_hex network input_vout input_value
      4294967295 [(borrower_address, 546)] txidB wsB [bSpk] htx htxl hws hwsl hvout
      (by norm_num) hval (by norm_num) hbv,
    create_unsigned_psbt_eq input_txid witness_script_hex network input_vout input_value
      4294967295 [(lender_address, 546)] txidB wsB [lSpk] htx htxl hws hwsl hvout
      (by norm_num) hval (by norm_num) hlv,
    create_unsigned_psbt_eq input_txid witness_script_hex network input_vout input_value
      4294967295 [(lender_address, 382), (borrower_address, 546 - 382)] txidB wsB [lSpk, bSpk]
      htx htxl hws hwsl hvout (by norm_num) hval (by norm_num) hsplit,
    create_unsigned_psbt_eq input_txid witness_script_hex network input_vout input_value
      recovery_blocks [(borrower_address, 546)] txidB wsB [bSpk] htx htxl hws hwsl hvout
      hblocks hval (by norm_num) hbv]
  rfl

theorem indexOf_append_left {c : Char} (l₁ l₂ : List Char) (h : c ∉ l₁) :
    (l₁ ++ l₂).indexOf c = l₁.length + l₂.indexOf c := by
  induction l₁ with
  | nil => simp
  | cons a as ih =>
    have hne : (a == c) = false := by
      simp only [beq_eq_false_iff_ne, ne_eq]
      intro he
      exact h (by simp [he])
    rw [List.cons_append, List.indexOf_cons, ih (fun hm => h (List.mem_cons_of_mem a hm)), hne]
    simp only [cond_false, List.length_cons]
    omega

theorem charset_syms (w : List Char) (h : ∀ c ∈ w, c ∈ CHARSET) :
    ∃ syms, w.mapM (fun c => CHARSET.indexOf? c) = some syms ∧ syms.length = w.length := by
  induction w with
  | nil => exact ⟨[], rfl, rfl⟩
  | cons c cs ih =>
    obtain ⟨syms, hs, hl⟩ := ih (fun x hx => h x (by simp [hx]))
    have hc : c ∈ CHARSET := h c (by simp)
    obtain ⟨i, hi⟩ : ∃ i, CHARSET.indexOf? c = some i := by
      cases hio : CHARSET.indexOf? c with
      | none => exact absurd (List.indexOf?_eq_none_iff.mp hio c hc) (by simp)
      | some i => exact ⟨i, rfl⟩
    refine ⟨i :: syms, ?_, by simp [hl]⟩
    rw [List.mapM_cons, hi, hs]
    rfl

/-- C6 amended: the address decoder used by the PSBT builder strips the
final six checksum symbols without verifying them — two candidate address
strings that agree except in their last six charset symbols decode to
exactly the same result, so a checksum error is never detected by decode
(bech32_verify_checksum exists in the source but the decoder never calls
it). -/
theorem decode_ignores_checksum (s : String) (t u : List Char)
    (ht6 : t.length = 6) (hu6 : u.length = 6)
    (ht : ∀ c ∈ t, c ∈ CHARSET) (hu : ∀ c ∈ u, c ∈ CHARSET) :
    decode_bech32_to_scriptpubkey (s ++ String.mk t)
      = decode_bech32_to_scriptpubkey (s ++ String.mk u) := by
  have hone : ('1' : Char) ∉ CHARSET := by decide
  have h1t : ('1' : Char) ∉ t := fun hm => hone (ht _ hm)
  have h1u : ('1' : Char) ∉ u := fun hm => hone (hu _ hm)
  have hlt : (s ++ String.mk t).toList = s.toList ++ t := String.data_append s (String.mk t)
  have hlu : (s ++ String.mk u).toList = s.toList ++ u := String.data_append s (String.mk u)
  unfold decode_bech32_to_scriptpubkey
  rw [hlt, hlu]
  by_cases hmem : '1' ∈ s.toList
  swap
  · rw [if_neg (fun hc => ((List.mem_append.mp hc).elim (fun h => hmem h) (fun h => h1t h))),
      if_neg (fun hc => ((List.mem_append.mp hc).elim (fun h => hmem h) (fun h => h1u h)))]
  · rw [if_pos (List.mem_append.mpr (Or.inl hmem)), if_pos (List.mem_append.mpr (Or.inl hmem))]
    dsimp only
    have hidx : ∀ w : List Char, w.length = 6 → ('1' : Char) ∉ w →
        (s.toList ++ w).reverse.indexOf '1' = 6 + s.toList.reverse.indexOf '1' := by
      intro w hw hnw
      rw [List.reverse_append, indexOf_append_left _ _ (by simp [hnw]), List.length_reverse, hw]
    have hridx : s.toList.reverse.indexOf '1' < s.toList.length := by
      have := List.indexOf_lt_length.mpr (List.mem_reverse.mpr hmem)
      simpa using this
    have hpos : ∀ w : List Char, w.length = 6 → ('1' : Char) ∉ w →
        (s.toList ++ w).length - 1 - (s.toList ++ w).reverse.indexOf '1'
          = s.toList.length - 1 - s.toList.reverse.indexOf '1' := by
      intro w hw hnw
      rw [hidx w hw hnw, List.length_append, hw]
      omega
    rw [hpos t ht6 h1t, hpos u hu6 h1u]
    by_cases hsmall : s.toList.length - 1 - s.toList.reverse.indexOf '1' < 1
    · rw [if_pos hsmall, if_pos hsmall]
    · rw [if_neg hsmall, if_neg hsmall]
      have hdrople : (s.toList.length - 1 - s.toList.reverse.indexOf '1') + 1
          ≤ s.toList.length := by omega
      have hdrop : ∀ w : List Char,
          (s.toList ++ w).drop ((s.toList.length - 1 - s.toList.reverse.indexOf '1') + 1)
            = s.toList.drop ((s.toList.length - 1 - s.toList.reverse.indexOf '1') + 1) ++ w :=
        fun w => List.drop_append_of_le_length hdrople
      rw [hdrop t, hdrop u]
      obtain ⟨symsT, hsT, hlT⟩ := charset_syms t ht
      obtain ⟨symsU, hsU, hlU⟩ := charset_syms u hu
      rw [List.mapM_append, List.mapM_append, hsT, hsU]
      cases hS : (s.toList.drop ((s.toList.length - 1 - s.toList.reverse.indexOf '1') + 1)).mapM
          (fun c => CHARSET.indexOf? c) with
      | none => rfl
      | some symsS =>
        have htake : ∀ syms6 : List Nat, syms6.length = 6 →
            (symsS ++ syms6).take ((symsS ++ syms6).length - 6) = symsS := by
          intro syms6 h6
          rw [List.length_append, h6]
          have : symsS.length + 6 - 6 = symsS.length := by omega
          rw [this, List.take_left]
        simp only [Option.bind_eq_bind, Option.some_bind]
        rw [htake symsT (by rw [hlT, ht6]), htake symsU (by rw [hlU, hu6])]

/-- C8 amended: encode_bech32_address enforces no witness-program length
bound — for every hrp, every witness version below 32, and every byte
list whose entries fit in a byte, of any length whatsoever (including 41
bytes), it returns an address string rather than failing. -/
theorem encode_no_length_bound (hrp : String) (witver : Nat) (witprog : List Nat)
    (hv : witver < 32) (hb : ∀ x ∈ witprog, x < 256) :
    ∃ s, encode_bech32_address hrp witver witprog = some s :=
  encode_bech32_isSome hrp witver witprog hv hb

/-- C5 amended: public-key canonicalization contract — after stripping
surrounding whitespace, every occurrence of the substring 0x is removed
(not only a leading prefix); validation then fails with InvalidEncoding
iff a remaining character is not a hex digit, with InvalidLength iff the
cleaned string is not exactly 66 characters, with InvalidPrefix iff the
first decoded byte is not 0x02 or 0x03; and a validation failure for any
key aborts the whole derivation (an escrow result exists only when all
three keys validated). -/
theorem escrow_key_validation (s : String) :
    (validate_pubkey s = Except.error KeyErr.invalidEncoding
      ↔ (cleanKey s).toList.all isHexDigitChar = false)
    ∧ (validate_pubkey s = Except.error KeyErr.invalidLength
      ↔ ((cleanKey s).toList.all isHexDigitChar = true ∧ (cleanKey s).length ≠ 66))
    ∧ (validate_pubkey s = Except.error KeyErr.invalidPrefix
      ↔ ((cleanKey s).toList.all isHexDigitChar = true ∧ (cleanKey s).length = 66
          ∧ ∀ b rest, pyFromhex (lowerHex (cleanKey s)) = some (b :: rest)
              → ¬ (b = 2 ∨ b = 3)))
    ∧ (∀ b i p network r, create_multisig_escrow b i p network = Except.ok r →
        (validate_pubkey b).isOk = true ∧ (validate_pubkey i).isOk = true
          ∧ (validate_pubkey p).isOk = true) := by
  have hprop : ∀ b i p network r, create_multisig_escrow b i p network = Except.ok r →
      (validate_pubkey b).isOk = true ∧ (validate_pubkey i).isOk = true
        ∧ (validate_pubkey p).isOk = true := by
    intro b i p network r hr
    obtain ⟨-, -, kb, ki, kp, hvb, hvi, hvp, -⟩ := (escrow_ok_iff b i p network r).mp hr
    rw [hvb, hvi, hvp]
    exact ⟨rfl, rfl, rfl⟩
  by_cases h1 : (cleanKey s).toList.all isHexDigitChar = true
  swap
  · have h1f : (cleanKey s).toList.all isHexDigitChar = false := by
      cases hcase : (cleanKey s).toList.all isHexDigitChar
      · rfl
      · exact absurd hcase h1
    have hv : validate_pubkey s = Except.error KeyErr.invalidEncoding := by
      unfold validate_pubkey
      dsimp only
      rw [if_pos (fun hc => Bool.false_ne_true (h1f.symm.trans hc))]
    refine ⟨⟨fun _ => h1f, fun _ => hv⟩, ?_, ?_, hprop⟩
    · exact ⟨fun h => absurd (hv.symm.trans h) (by simp),
        fun hc => absurd (h1f.symm.trans hc.1) (by simp)⟩
    · exact ⟨fun h => absurd (hv.symm.trans h) (by simp),
        fun hc => absurd (h1f.symm.trans hc.1) (by simp)⟩
  · by_cases h2 : (cleanKey s).length = 66
    swap
    · have hv : validate_pubkey s = Except.error KeyErr.invalidLength := by
        unfold validate_pubkey
        dsimp only
        rw [if_neg (not_not_intro h1), if_pos h2]
      refine ⟨?_, ⟨fun _ => ⟨h1, h2⟩, fun _ => hv⟩, ?_, hprop⟩
      · exact ⟨fun h => absurd (hv.symm.trans h) (by simp),
          fun hfalse => absurd (hfalse.symm.trans h1) (by simp)⟩
      · exact ⟨fun h => absurd (hv.symm.trans h) (by simp),
          fun hc => absurd hc.2.1 h2⟩
    · cases hf : pyFromhex (lowerHex (cleanKey s)) with
      | none =>
        have hv : validate_pubkey s = Except.error KeyErr.invalidPrefix := by
          unfold validate_pubkey
          dsimp only
          rw [if_neg (not_not_intro h1), if_neg (not_not_intro h2), hf]
        refine ⟨?_, ?_, ?_, hprop⟩
        · exact ⟨fun h => absurd (hv.symm.trans h) (by simp),
            fun hfalse => absurd (hfalse.symm.trans h1) (by simp)⟩
        · exact ⟨fun h => absurd (hv.symm.trans h) (by simp),
            fun hc => absurd h2 hc.2⟩
        · exact ⟨fun _ => ⟨h1, h2, fun b rest hbr => by cases hbr⟩,
            fun _ => hv⟩
      | some l =>
        cases l with
        | nil =>
          have hv : validate_pubkey s = Except.error KeyErr.invalidPrefix := by
            unfold validate_pubkey
            dsimp only
            rw [if_neg (not_not_intro h1), if_neg (not_not_intro h2), hf]
          refine ⟨?_, ?_, ?_, hprop⟩
          · exact ⟨fun h => absurd (hv.symm.trans h) (by simp),
              fun hfalse => absurd (hfalse.symm.trans h1) (by simp)⟩
          · exact ⟨fun h => absurd (hv.symm.trans h) (by simp),
              fun hc => absurd h2 hc.2⟩
          · refine ⟨fun _ => ⟨h1, h2, fun b rest hbr => ?_⟩, fun _ => hv⟩
            exact absurd hbr (by simp)
        | cons b0 rest0 =>
          by_cases hb : b0 = 2 ∨ b0 = 3
          · have hvk : validate_pubkey s = Except.ok (lowerHex (cleanKey s)) := by
              unfold validate_pubkey
              dsimp only
              rw [if_neg (not_not_intro h1), if_neg (not_not_intro h2), hf]
              dsimp only
              rw [if_pos hb]
            refine ⟨?_, ?_, ?_, hprop⟩
            · exact ⟨fun h => absurd (hvk.symm.trans h) (by simp),
                fun hfalse => absurd (hfalse.symm.trans h1) (by simp)⟩
            · exact ⟨fun h => absurd (hvk.symm.trans h) (by simp),
                fun hc => absurd hc.2 (by simp [h2])⟩
            · exact ⟨fun h => absurd (hvk.symm.trans h) (by simp),
                fun hc => absurd hb (hc.2.2 b0 rest0 rfl)⟩
          · have hv : validate_pubkey s = Except.error KeyErr.invalidPrefix := by
              unfold validate_pubkey
              dsimp only
              rw [if_neg (not_not_intro h1), if_neg (not_not_intro h2), hf]
              dsimp only
              rw [if_neg hb]
            refine ⟨?_, ?_, ?_, hprop⟩
            · exact ⟨fun h => absurd (hv.symm.trans h) (by simp),
                fun hfalse => absurd (hfalse.symm.trans h1) (by simp)⟩
            · exact ⟨fun h => absurd (hv.symm.trans h) (by simp),
                fun hc => absurd h2 hc.2⟩
            · refine ⟨fun _ => ⟨h1, h2, fun b rest hbr => ?_⟩, fun _ => hv⟩
              simp only [Option.some.injEq, List.cons.injEq] at hbr
              obtain ⟨hb1, -⟩ := hbr
              rw [← hb1]
              exact hb

/-! Concrete inputs for witnesses and counterexamples. -/

set_option maxRecDepth 1000000

/-- Default test key of the source CLI (borrower). -/
def pubkeyA : String := "02e3b0c44298fc1c149afbf4c8996fb92427ae41e4649b934ca495991b7852b855"

/-- Default test key of the source CLI (investor). -/
def pubkeyB : String := "0279be667ef9dcbbac55a06295ce870b07029bfcdb2dce28d959f2815b16f81798"

/-- Default test key of the source CLI (platform). -/
def pubkeyC : String := "03b1d168ccdfa27364697797909170da9177db95449f7a8ef5311be8b37717976e"

/-- A key string whose 0x occurs after the first byte, not as a leading
marker: 0x followed by 64 zeros, preceded by 03. -/
def badKey : String :=
  "030x0000000000000000000000000000000000000000000000000000000000000000"

/-- The default borrower return address of the source CLI (BIP-173 P2WPKH
test vector, valid checksum). -/
def addrP2WPKH : String := "tb1qw508d6qejxtdg4y5r3zarvary0c5xw7kxpjzsx"

/-- The same address with one witness-program character substituted
(position 10, q for p), which breaks the checksum. -/
def addrFlipped : String := "tb1qw508d6pejxtdg4y5r3zarvary0c5xw7kxpjzsx"

/-- The default lender address of the source CLI (P2WSH). -/
def addrP2WSH : String :=
  "tb1qrp33g0q5c5txsp9arysrx4k6zdkfs4nce4xj0gdcccefvpysxf3q0sl5k7"

/-- The valid test address with its final six checksum symbols removed. -/
def addrStem : String := "tb1qw508d6qejxtdg4y5r3zarvary0c5xw7k"

/-- Bech32 address of the two-byte script 0x53 0x21 on testnet. -/
def addrFor5321 : String :=
  "tb1qpjsd4vw4vaakm6cq42ytg94h99c4myaxadljmgzzaxd77dm8vlqsh9rdz0"

/-- The placeholder all-zero txid used by the source CLI. -/
def txidZero : String :=
  "0000000000000000000000000000000000000000000000000000000000000000"

/-- An inhabitant of EscrowResult used only as a getD default. -/
def emptyEscrowResult : EscrowResult :=
  ⟨none, [], [], [], [], ("", "", ""), 0, 0, ""⟩

/-- The escrow result derived from the three default test keys. -/
def escrowResultABC : EscrowResult :=
  (create_multisig_escrow pubkeyA pubkeyB pubkeyC "testnet").toOption.getD emptyEscrowResult

/-- Byte form of the first default key. -/
def keyBytesA : List Nat := (pyFromhex (strTrim pubkeyA)).getD []

/-- Byte form of the second default key. -/
def keyBytesB : List Nat := (pyFromhex (strTrim pubkeyB)).getD []

/-- Byte form of the third default key. -/
def keyBytesC : List Nat := (pyFromhex (strTrim pubkeyC)).getD []

/-- Decoded scriptPubKey of the P2WPKH test address. -/
def spkP2WPKH : List Nat := (decode_bech32_to_scriptpubkey addrP2WPKH).getD []

/-- Decoded scriptPubKey of the P2WSH test address. -/
def spkP2WSH : List Nat := (decode_bech32_to_scriptpubkey addrP2WSH).getD []

/-- Charset symbol values of the data part of an address. -/
def addrSyms (a : String) : List Nat :=
  ((a.toList.drop 3).mapM (fun c => CHARSET.indexOf? c)).getD []

theorem except_ok_of_toOption {e a : Type} (x : Except e a) (v : a)
    (h : x.toOption = some v) : x = Except.ok v := by
  cases x with
  | error err => simp [Except.toOption] at h
  | ok b =>
    simp [Except.toOption] at h
    rw [h]

/-- C1 witness: the order-independence theorem applied to the default
keys under the swap of the first two arguments. -/
theorem escrow_order_independence_witness :
    List.Perm [pubkeyB, pubkeyA, pubkeyC] [pubkeyA, pubkeyB, pubkeyC]
    ∧ ∃ r2, create_multisig_escrow pubkeyB pubkeyA pubkeyC "testnet" = Except.ok r2
        ∧ r2.witness_script = escrowResultABC.witness_script
        ∧ r2.script_hash = escrowResultABC.script_hash
        ∧ r2.address = escrowResultABC.address :=
  ⟨List.Perm.swap pubkeyA pubkeyB [pubkeyC],
   escrow_order_independence pubkeyA pubkeyB pubkeyC pubkeyB pubkeyA pubkeyC "testnet"
     (List.Perm.swap pubkeyA pubkeyB [pubkeyC]) escrowResultABC
     (except_ok_of_toOption _ _ (by decide))⟩

/-- C2 witness: the derivation-correctness theorem applied to the default
keys on testnet. -/
theorem escrow_p2wsh_derivation_witness :
    escrowResultABC.script_hash.length = 32
    ∧ escrowResultABC.script_pubkey.length = 34
    ∧ ∃ s, escrowResultABC.address = some s :=
  have h := escrow_p2wsh_derivation pubkeyA pubkeyB pubkeyC "testnet" escrowResultABC
    (except_ok_of_toOption _ _ (by decide))
  ⟨h.2.2.1, h.2.2.2.2.1, h.2.2.2.2.2.2⟩

/-- C3 witness: the PSBT layout theorem applied to the CLI placeholder
inputs, showing the builder returns a PSBT string there. -/
theorem psbt_byte_layout_witness :
    (create_unsigned_psbt txidZero 0 100000 "5321" [(addrP2WPKH, 99500)]
      4294967295 "testnet").isSome = true := by
  have h := psbt_byte_layout txidZero "5321" "testnet" 0 100000 4294967295
    [(addrP2WPKH, 99500)] (List.replicate 32 0) [0x53, 0x21] [spkP2WPKH]
    (by decide) (by decide) (by decide) (by decide) (by decide) (by decide)
    (by decide) (by decide) (by decide)
    (List.Forall₂.cons ⟨Or.inl (by decide), by decide, by decide, by decide⟩ List.Forall₂.nil)
  rw [h]
  rfl

/-- C4 witness: the timelocked-script layout theorem applied to the
default keys and the default 4320-block timelock. -/
theorem timelocked_witness_script_layout_witness :
    (create_timelocked_witness_script pubkeyA pubkeyB pubkeyC 4320).isSome = true := by
  have h := timelocked_witness_script_layout pubkeyA pubkeyB pubkeyC 4320
    keyBytesA keyBytesB keyBytesC (by decide) (by decide) (by decide)
    (by decide) (by decide) (by decide)
  rw [h.1]
  rfl

/-- C5 counterexample: a key whose 0x occurs in the middle, not as a
leading marker — its trimmed form does not start with 0x and contains the
non-hex character x, yet create_multisig_escrow succeeds, because the
source removes every occurrence of the substring 0x rather than only a
leading prefix. -/
theorem escrow_zero_x_removed_everywhere_cx :
    ('x' ∈ badKey.toList)
    ∧ charsBegin ['0', 'x'] (strTrim badKey).toList = false
    ∧ (create_multisig_escrow badKey pubkeyB pubkeyC "testnet").isOk = true :=
  ⟨by decide, by decide, by decide⟩

/-- C5 witness: the validation characterization applied to a concrete
non-hex key string. -/
theorem escrow_key_validation_witness :
    (cleanKey "zz").toList.all isHexDigitChar = false
    ∧ validate_pubkey "zz" = Except.error KeyErr.invalidEncoding :=
  ⟨by decide, (escrow_key_validation "zz").1.mpr (by decide)⟩

/-- C6 counterexample: the BIP-173 test address has a valid checksum;
substituting one witness-program character breaks the checksum, yet
decode_bech32_to_scriptpubkey still returns a witness program for the
altered address instead of failing with a checksum mismatch. -/
theorem decode_checksum_flip_accepted_cx :
    bech32_verify_checksum "tb" (addrSyms addrP2WPKH) = true
    ∧ bech32_verify_checksum "tb" (addrSyms addrFlipped) = false
    ∧ (List.zip addrP2WPKH.toList addrFlipped.toList).countP (fun p => p.1 ≠ p.2) = 1
    ∧ addrP2WPKH.length = addrFlipped.length
    ∧ (decode_bech32_to_scriptpubkey addrFlipped).isSome = true :=
  ⟨by decide, by decide, by decide, by decide, by decide⟩

/-- C6 witness: the checksum-ignoring theorem applied to the test address
stem with its true checksum symbols and with six q symbols. -/
theorem decode_ignores_checksum_witness :
    decode_bech32_to_scriptpubkey (addrStem ++ String.mk ['x', 'p', 'j', 'z', 's', 'x'])
      = decode_bech32_to_scriptpubkey (addrStem ++ String.mk ['q', 'q', 'q', 'q', 'q', 'q']) :=
  decode_ignores_checksum addrStem ['x', 'p', 'j', 'z', 's', 'x']
    ['q', 'q', 'q', 'q', 'q', 'q'] (by decide) (by decide) (by decide) (by decide)

/-- C7 counterexample: an input value of 1000 satoshis is at most the
500-satoshi fee estimate plus the 546-satoshi dust limit, yet template
generation succeeds with the output value floored at 546 — no
InsufficientValue failure occurs. -/
theorem generate_no_insufficient_value_cx :
    1000 ≤ 500 + 546
    ∧ templatesOutputValue 1000 = 546
    ∧ (generate_psbt_templates "5321" addrP2WPKH addrP2WSH txidZero 0 1000 4320
        "testnet").isSome = true :=
  ⟨by decide, by decide, by decide⟩

/-- C7 witness: the dust-floor theorem applied at the boundary input value
of 1046 satoshis. -/
theorem generate_psbt_dust_floor_witness :
    templatesOutputValue 1046 = 546
    ∧ (generate_psbt_templates "5321" addrP2WPKH addrP2WSH txidZero 0 1046 4320
        "testnet").isSome = true := by
  have h := generate_psbt_dust_floor "5321" addrP2WPKH addrP2WSH txidZero "testnet"
    0 1046 4320 (List.replicate 32 0) [0x53, 0x21] spkP2WPKH spkP2WSH
    (by decide) (by decide) (by decide) (by decide) (Or.inl (by decide)) (by decide)
    (by decide) (Or.inl (by decide)) (by decide) (by decide) (by decide) (by decide)
    (by decide)
  exact ⟨h.1, h.2.2⟩

/-- C8 counterexample: a 41-byte witness program, one byte beyond the
segwit bound, is encoded to an address rather than rejected. -/
theorem encode_accepts_41_byte_program_cx :
    (List.replicate 41 (0 : Nat)).length = 41
    ∧ (encode_bech32_address "tb" 0 (List.replicate 41 0)).isSome = true :=
  ⟨by decide, by decide⟩

/-- C8 witness: the no-length-bound theorem applied to the 41-byte zero
program. -/
theorem encode_no_length_bound_witness :
    ∃ s, encode_bech32_address "tb" 0 (List.replicate 41 0) = some s :=
  encode_no_length_bound "tb" 0 (List.replicate 41 0) (by decide) (by decide)

/-- C9 witness: the verifier characterization applied to the two-byte
script 0x53 0x21 and its testnet address. -/
theorem verify_never_raises_witness :
    verify_multisig_address addrFor5321 "5321" "testnet" = true :=
  (verify_never_raises addrFor5321 "5321" "testnet").mpr
    ⟨Or.inl rfl, [0x53, 0x21], by decide, by decide⟩

/-- C10 witness: the termination dichotomy applied at 5 and at minus 7. -/
theorem push_int_total_iff_nonneg_witness :
    ((0 : Int) ≤ 5 ∧ ∃ fuel, (push_int_loop fuel 5).isSome = true)
    ∧ ((-7 : Int) < 0 ∧ push_int_loop 9 (-7) = none
        ∧ create_timelocked_witness_script_int 9 "02" "03" "04" (-7) = none) :=
  ⟨⟨by decide, push_int_total_iff_nonneg.1 5 (by decide)⟩,
   ⟨by decide, push_int_total_iff_nonneg.2.1 (-7) (by decide) 9,
    push_int_total_iff_nonneg.2.2 (-7) (by decide) 9 "02" "03" "04"⟩⟩

end Reconquest
